import Mathlib

/-!
Verification of the geometry / FlatGeobuf feature-file core of this
repository (`ogrlinestring.cpp`, `ogrflatgeobuflayer.cpp`) against its
specification.  Each C++ function relevant to a claim is shallowly
embedded as a Lean definition; machine doubles are idealised as real
numbers, machine integers as `Nat`/`Int` with explicit bounds where the
code checks them.
-/

namespace GdalSpec

/-! ## OGRSimpleCurve::transform (ogrlinestring.cpp:2511-2617)

The transform is invoked in bulk and fills a per-point success array.
We embed the post-`Transform` loop: its input is the list of
(transformed point, success flag) pairs and the value of the
`OGR_ENABLE_PARTIAL_REPROJECTION` configuration option
(`none` = unset, `some b` = set with `CPLTestBool` value `b`). -/

/-- A transformed point: x, y, z coordinates. -/
abbrev Pt3 := ℚ × ℚ × ℚ

/-- The survivor-compaction loop of `OGRSimpleCurve::transform`
(ogrlinestring.cpp:2549-2600): on a failed point the operation aborts
unless the partial-reprojection option is set to a true value, in which
case the point is dropped. Returns the compacted survivor list. -/
def transformLoop (cfg : Option Bool) : List (Pt3 × Bool) → Option (List Pt3)
  | [] => some []
  | (p, true) :: rest => (transformLoop cfg rest).map (p :: ·)
  | (_, false) :: rest =>
    match cfg with
    | some true => transformLoop cfg rest
    | _ => none

/-- `OGRSimpleCurve::transform` after the bulk transform call:
runs the compaction loop, then fails when zero points survived on a
non-empty curve (ogrlinestring.cpp:2602-2607); on success the curve's
points are replaced by the survivors (`setPoints`). -/
def curveTransform (outs : List (Pt3 × Bool)) (cfg : Option Bool) :
    Option (List Pt3) :=
  match transformLoop cfg outs with
  | none => none
  | some s => if s.isEmpty ∧ ¬outs.isEmpty then none else some s

lemma transformLoop_none_eq (outs : List (Pt3 × Bool)) :
    transformLoop none outs =
      if outs.all (·.2) then some (outs.map (·.1)) else none := by
  induction outs with
  | nil => simp [transformLoop]
  | cons pb rest ih =>
    obtain ⟨p, b⟩ := pb
    cases b with
    | true => simp [transformLoop, ih]; by_cases h : rest.all (·.2) <;> simp [h]
    | false => simp [transformLoop]

lemma transformLoop_partial_eq (outs : List (Pt3 × Bool)) :
    transformLoop (some true) outs =
      some ((outs.filter (·.2)).map (·.1)) := by
  induction outs with
  | nil => simp [transformLoop]
  | cons pb rest ih =>
    obtain ⟨p, b⟩ := pb
    cases b with
    | true => simp [transformLoop, ih, List.filter]
    | false => simp [transformLoop, ih, List.filter]

/-! ## OGRSimpleCurve::setNumPoints (ogrlinestring.cpp:447-548)

The coordinate buffer: logical point count, shared capacity
`m_nPointCapacity`, the three backing allocations (`paoPoints`,
`padfZ`, `padfM`; `none` = null pointer, `some c` = an allocation of
`c` elements) and the dimensionality flags.  Allocation is assumed to
succeed (the out-of-memory exits are not modelled). -/

/-- Coordinate-buffer state of an `OGRSimpleCurve`. -/
structure CurveBufState where
  nPointCount : ℕ
  nPointCapacity : ℕ
  paoPoints : Option ℕ
  padfZ : Option ℕ
  padfM : Option ℕ
  hasZ : Bool
  hasM : Bool
deriving DecidableEq

/-- Allocator events performed by `setNumPoints`, in order. -/
inductive AllocEvent
  /-- the `VSIFree` block for all three arrays (ogrlinestring.cpp:480-492) -/
  | freeArrays
  /-- `VSI_REALLOC_VERBOSE(paoPoints, …)` to the given capacity -/
  | reallocXY (c : ℕ)
  /-- `VSI_REALLOC_VERBOSE(padfZ, …)` -/
  | reallocZ (c : ℕ)
  /-- `VSI_REALLOC_VERBOSE(padfM, …)` -/
  | reallocM (c : ℕ)
deriving DecidableEq

/-- `std::numeric_limits<int>::max() / static_cast<int>(sizeof(OGRRawPoint))`
= 2147483647 / 16. -/
def maxPointsLimit : ℕ := 2147483647 / 16

/-- `OGRSimpleCurve::setNumPoints(nNewPointCount, bZeroizeNewContent)`
(ogrlinestring.cpp:447-548).  Returns `none` for the too-many-points
failure, otherwise the new state together with the ordered list of
allocator events.  Zero-filling of newly exposed elements only touches
array contents, which are not part of this state. -/
def setNumPoints (s : CurveBufState) (nNewPointCount : ℕ) :
    Option (CurveBufState × List AllocEvent) :=
  if nNewPointCount > s.nPointCapacity then
    if nNewPointCount > maxPointsLimit then none
    else
      let nNewCapacity :=
        if s.nPointCount = 0 ∨ nNewPointCount > maxPointsLimit - nNewPointCount / 3
        then nNewPointCount
        else nNewPointCount + nNewPointCount / 3
      let (s1, ev1) :=
        if s.nPointCount = 0 ∧ s.paoPoints ≠ none then
          ({ s with paoPoints := none, padfZ := none, padfM := none,
                    nPointCapacity := 0 }, [AllocEvent.freeArrays])
        else (s, [])
      let s2 := { s1 with paoPoints := some nNewCapacity }
      let ev2 := ev1 ++ [AllocEvent.reallocXY nNewCapacity]
      let s3 := if s.hasZ then { s2 with padfZ := some nNewCapacity } else s2
      let ev3 := ev2 ++ if s.hasZ then [AllocEvent.reallocZ nNewCapacity] else []
      let s4 := if s.hasM then { s3 with padfM := some nNewCapacity } else s3
      let ev4 := ev3 ++ if s.hasM then [AllocEvent.reallocM nNewCapacity] else []
      some ({ s4 with nPointCapacity := nNewCapacity,
                      nPointCount := nNewPointCount }, ev4)
  else
    some ({ s with nPointCount := nNewPointCount }, [])

/-- The empty curve as constructed. -/
def emptyCurveBuf : CurveBufState :=
  { nPointCount := 0, nPointCapacity := 0, paoPoints := none,
    padfZ := none, padfM := none, hasZ := false, hasM := false }

/-! ## OGRFlatGeobufLayer::parseFeature property-stream decode
(ogrflatgeobuflayer.cpp:1174-1441)

The property stream is a byte list; the parser mirrors the
`while (offset + 1 < size)` loop: a little-endian `uint16` column
index followed by a typed payload.  The decoded state tracked here is
the set of already-set field indices (`OGR_RawField_IsUnset`); the
in-loop `offset + sizeof(uint16_t) > size` guard is unreachable under
the loop condition and the byte values themselves are not interpreted
further.  `ParseDateTime`/`OGRParseDate` (outside these sources) are
abstracted as the predicate `dtOK` on the value bytes; a DateTime
value that fails to parse is reset to unset
(ogrflatgeobuflayer.cpp:1407). -/

/-- FlatGeobuf column types (`ColumnType`). -/
inductive FColumnType
  | boolT | byteT | ubyteT | shortT | ushortT | intT | uintT | longT
  | ulongT | floatT | doubleT | stringT | jsonT | dateTimeT | binaryT
deriving DecidableEq

/-- Byte width of the fixed-width value types; `none` for the
length-prefixed ones (String, Json, DateTime, Binary). -/
def fixedWidth : FColumnType → Option ℕ
  | .boolT => some 1
  | .byteT => some 1
  | .ubyteT => some 1
  | .shortT => some 2
  | .ushortT => some 2
  | .intT => some 4
  | .uintT => some 4
  | .floatT => some 4
  | .longT => some 8
  | .ulongT => some 8
  | .doubleT => some 8
  | .stringT => none
  | .jsonT => none
  | .dateTimeT => none
  | .binaryT => none

/-- A schema column as the decode loop sees it: its type from the
header and the caller's ignore flag
(`poFeature->GetFieldDefnRef(i)->IsIgnored()`). -/
structure FgbColumn where
  type : FColumnType
  ignored : Bool
deriving DecidableEq

/-- Decode-time error kinds: `OGRERR_CORRUPT_DATA` returned directly,
and the `CPLErrorInvalidSize` helper (declared in `cplerrors.h`,
outside these sources) for truncation checks. -/
inductive PropParseErr
  | corruptData
  | invalidSize
deriving DecidableEq

/-- The length-prefixed value cases of the decode switch
(String/Json, DateTime, Binary; ogrflatgeobuflayer.cpp:1359-1438):
read the 4-byte little-endian length, run the per-type truncation
checks, and report how many value bytes follow and whether the field
gets stored (`!isIgnored`, and for DateTime also that the value
parses). -/
def varValueStep (col : FgbColumn) (dtOK : List ℕ → Bool) :
    List ℕ → Except PropParseErr (ℕ × Bool)
  | c0 :: c1 :: c2 :: c3 :: r4 =>
    let len := c0 % 256 + 256 * (c1 % 256) +
      65536 * (c2 % 256) + 16777216 * (c3 % 256)
    match col.type with
    | .dateTimeT =>
      if r4.length < len ∨ 32 < len then .error .invalidSize
      else .ok (len, !col.ignored && dtOK (r4.take len))
    | .binaryT =>
      if 2147483647 < len ∨ r4.length < len then .error .invalidSize
      else .ok (len, !col.ignored)
    | _ =>
      if r4.length < len then .error .invalidSize
      else .ok (len, !col.ignored)
  | _ => .error .invalidSize

/-- The property-stream decode loop, consuming the remaining bytes
(the `while (offset + 1 < size)` guard is the two-cons pattern).
State: the set of already-set field indices. -/
def parsePropStream (cols : Option (List FgbColumn)) (dtOK : List ℕ → Bool) :
    List ℕ → Finset ℕ → Except PropParseErr (Finset ℕ)
  | [], σ => .ok σ
  | [_], σ => .ok σ
  | b0 :: b1 :: rest, σ =>
    let i := b0 % 256 + 256 * (b1 % 256)
    match cols with
    | none => .error .corruptData
    | some cs =>
      if cs.length ≤ i then .error .corruptData
      else
        let col := cs.getD i ⟨.boolT, false⟩
        if i ∈ σ then .error .corruptData
        else
          match fixedWidth col.type with
          | some w =>
            if rest.length < w then .error .invalidSize
            else
              parsePropStream cols dtOK (rest.drop w)
                (if col.ignored then σ else insert i σ)
          | none =>
            match varValueStep col dtOK rest with
            | .error e => .error e
            | .ok (len, stored) =>
              parsePropStream cols dtOK (rest.drop (4 + len))
                (if stored then insert i σ else σ)
termination_by rem _ => rem.length
decreasing_by all_goals simp [List.length_drop]; omega

/-- `OGRFlatGeobufLayer::parseFeature` property handling
(ogrflatgeobuflayer.cpp:1174-1442): the undersized-stream pre-check
(`size > 0 && size < sizeof(uint16_t) + sizeof(uint8_t)`), then the
tagged-tuple loop, starting with all fields unset. -/
def parseFeatureProps (cols : Option (List FgbColumn))
    (dtOK : List ℕ → Bool) (data : List ℕ) :
    Except PropParseErr (Finset ℕ) :=
  if 0 < data.length ∧ data.length < 3 then .error .invalidSize
  else parsePropStream cols dtOK data ∅

/-- Little-endian `uint16` image of `n` (wire form of a column index). -/
def u16le (n : ℕ) : List ℕ := [n % 256, n / 256 % 256]

/-- Little-endian `uint32` image of `n` (wire form of a value length). -/
def u32le (n : ℕ) : List ℕ :=
  [n % 256, n / 256 % 256, n / 65536 % 256, n / 16777216 % 256]

/-- The wire form of one `(column index, typed value)` tuple, per the
feature-record format (§3/§4.3): the 2-byte little-endian index, then
the raw payload, length-prefixed for the variable-width types. -/
def encodeTuple (t : FColumnType) (i : ℕ) (v : List ℕ) : List ℕ :=
  u16le i ++
    (match fixedWidth t with
     | some _ => v
     | none => u32le v.length ++ v)

/-- Payload well-formedness for a tuple of type `t`: exact width for
fixed-width types; representable length (and the DateTime/Binary
length caps) for the variable-width ones. -/
def wfTupleVal (t : FColumnType) (v : List ℕ) : Prop :=
  match fixedWidth t with
  | some w => v.length = w
  | none => v.length < 4294967296 ∧ (t = .dateTimeT → v.length ≤ 32) ∧
      (t = .binaryT → v.length ≤ 2147483647)

/-- A property stream made of the given tuples, each encoded against
the schema `cs`. -/
def encodeProps (cs : List FgbColumn) (ts : List (ℕ × List ℕ)) : List ℕ :=
  (ts.map fun iv =>
    encodeTuple (cs.getD iv.1 ⟨.boolT, false⟩).type iv.1 iv.2).flatten

/-- The first occurrence of the tuple actually stores the field:
its column is not ignored, and a DateTime value parses. -/
def storedTuple (col : FgbColumn) (dtOK : List ℕ → Bool) (v : List ℕ) :
    Prop :=
  col.ignored = false ∧ (col.type ≠ .dateTimeT ∨ dtOK v = true)

instance (col : FgbColumn) (dtOK : List ℕ → Bool) (v : List ℕ) :
    Decidable (storedTuple col dtOK v) := by
  unfold storedTuple
  infer_instance

lemma u16le_decode (i : ℕ) (hi : i < 65536) :
    i % 256 % 256 + 256 * (i / 256 % 256 % 256) = i := by omega

/-- Reading back an encoded variable-width value: the checks pass and
the reported consumption/storage matches the tuple. -/
lemma varValueStep_encode (col : FgbColumn) (dtOK : List ℕ → Bool)
    (v rest : List ℕ) (hfw : fixedWidth col.type = none)
    (hlen32 : v.length < 4294967296)
    (hdt32 : col.type = .dateTimeT → v.length ≤ 32)
    (hbin : col.type = .binaryT → v.length ≤ 2147483647) :
    varValueStep col dtOK (u32le v.length ++ (v ++ rest)) =
      .ok (v.length,
        if col.type = .dateTimeT then !col.ignored && dtOK v
        else !col.ignored) := by
  have hlendec : v.length % 256 % 256 + 256 * (v.length / 256 % 256 % 256) +
      65536 * (v.length / 65536 % 256 % 256) +
      16777216 * (v.length / 16777216 % 256 % 256) = v.length := by omega
  rw [show u32le v.length ++ (v ++ rest)
      = (v.length % 256) :: (v.length / 256 % 256) ::
        (v.length / 65536 % 256) :: (v.length / 16777216 % 256) ::
        (v ++ rest) by simp [u32le]]
  rw [varValueStep]
  simp only [hlendec]
  have hvle : ¬ ((v ++ rest).length < v.length) := by simp
  have htake : (v ++ rest).take v.length = v := List.take_left v rest
  cases hty : col.type with
  | dateTimeT =>
    simp only []
    have h32 := hdt32 hty
    rw [if_neg (by simp only [List.length_append]; omega), htake]
    simp
  | binaryT =>
    simp only []
    have hb := hbin hty
    rw [if_neg (by simp only [List.length_append]; omega),
      if_neg (by simp)]
  | stringT =>
    simp only []
    rw [if_neg hvle, if_neg (by simp)]
  | jsonT =>
    simp only []
    rw [if_neg hvle, if_neg (by simp)]
  | boolT => rw [hty] at hfw; simp [fixedWidth] at hfw
  | byteT => rw [hty] at hfw; simp [fixedWidth] at hfw
  | ubyteT => rw [hty] at hfw; simp [fixedWidth] at hfw
  | shortT => rw [hty] at hfw; simp [fixedWidth] at hfw
  | ushortT => rw [hty] at hfw; simp [fixedWidth] at hfw
  | intT => rw [hty] at hfw; simp [fixedWidth] at hfw
  | uintT => rw [hty] at hfw; simp [fixedWidth] at hfw
  | floatT => rw [hty] at hfw; simp [fixedWidth] at hfw
  | longT => rw [hty] at hfw; simp [fixedWidth] at hfw
  | ulongT => rw [hty] at hfw; simp [fixedWidth] at hfw
  | doubleT => rw [hty] at hfw; simp [fixedWidth] at hfw

lemma storedTuple_iff_flag (col : FgbColumn) (dtOK : List ℕ → Bool)
    (v : List ℕ) :
    ((if col.type = .dateTimeT then !col.ignored && dtOK v
      else !col.ignored) = true) ↔ storedTuple col dtOK v := by
  unfold storedTuple
  by_cases h : col.type = .dateTimeT
  · simp [h]
  · simp [h]

/-- Consuming one well-formed encoded tuple: a duplicate of an
already-set field is `CorruptData`; otherwise the loop advances, the
field becoming set exactly when the tuple stores it. -/
lemma parsePropStream_encodeTuple (cs : List FgbColumn)
    (dtOK : List ℕ → Bool) (i : ℕ) (v rest : List ℕ) (σ : Finset ℕ)
    (hi : i < 65536) (hrange : i < cs.length)
    (hwf : wfTupleVal (cs.getD i ⟨.boolT, false⟩).type v) :
    parsePropStream (some cs) dtOK
        (encodeTuple (cs.getD i ⟨.boolT, false⟩).type i v ++ rest) σ =
      (if i ∈ σ then .error .corruptData
       else parsePropStream (some cs) dtOK rest
        (if storedTuple (cs.getD i ⟨.boolT, false⟩) dtOK v then insert i σ
         else σ)) := by
  set col := cs.getD i ⟨.boolT, false⟩ with hcol
  have hdec : i % 256 % 256 + 256 * (i / 256 % 256 % 256) = i :=
    u16le_decode i hi
  cases hfw : fixedWidth col.type with
  | some w =>
    have hv : v.length = w := by
      unfold wfTupleVal at hwf
      rw [hfw] at hwf
      exact hwf
    have hnotdt : col.type ≠ .dateTimeT := by
      intro hdt
      rw [hdt] at hfw
      simp [fixedWidth] at hfw
    rw [show encodeTuple col.type i v ++ rest
        = (i % 256) :: (i / 256 % 256) :: (v ++ rest) by
      rw [encodeTuple, hfw]; simp [u16le]]
    rw [parsePropStream]
    simp only [hdec, ← hcol]
    rw [if_neg (by omega)]
    by_cases hσ : i ∈ σ
    · rw [if_pos hσ, if_pos hσ]
    · rw [if_neg hσ, if_neg hσ, hfw]
      simp only []
      rw [if_neg (by simp [hv])]
      rw [show (v ++ rest).drop w = rest by
        rw [← hv]; exact List.drop_left v rest]
      have hst : storedTuple col dtOK v ↔ col.ignored = false := by
        unfold storedTuple
        simp [hnotdt]
      cases hig : col.ignored with
      | true => rw [if_pos rfl, if_neg (by simp [hst, hig])]
      | false => rw [if_neg (by simp), if_pos (by simp [hst, hig])]
  | none =>
    have hwf3 : v.length < 4294967296 ∧
        (col.type = .dateTimeT → v.length ≤ 32) ∧
        (col.type = .binaryT → v.length ≤ 2147483647) := by
      unfold wfTupleVal at hwf
      rw [hfw] at hwf
      exact hwf
    obtain ⟨hlen32, hdt32, hbin⟩ := hwf3
    rw [show encodeTuple col.type i v ++ rest
        = (i % 256) :: (i / 256 % 256) :: (u32le v.length ++ (v ++ rest)) by
      rw [encodeTuple, hfw]; simp [u16le]]
    rw [parsePropStream]
    simp only [hdec, ← hcol]
    rw [if_neg (by omega)]
    by_cases hσ : i ∈ σ
    · rw [if_pos hσ, if_pos hσ]
    · rw [if_neg hσ, if_neg hσ, hfw]
      simp only []
      rw [varValueStep_encode col dtOK v rest hfw hlen32 hdt32 hbin]
      simp only []
      have hdrop : (u32le v.length ++ (v ++ rest)).drop (4 + v.length)
          = rest := by
        rw [← List.drop_drop]
        rw [show (u32le v.length ++ (v ++ rest)).drop 4 = v ++ rest by
          simp [u32le]]
        exact List.drop_left v rest
      rw [hdrop]
      by_cases hs : storedTuple col dtOK v
      · rw [if_pos ((storedTuple_iff_flag col dtOK v).mpr hs), if_pos hs]
      · rw [if_neg (fun hc => hs ((storedTuple_iff_flag col dtOK v).mp hc)),
          if_neg hs]

lemma encodeProps_nil (cs : List FgbColumn) : encodeProps cs [] = [] := rfl

lemma encodeProps_cons (cs : List FgbColumn) (iv : ℕ × List ℕ)
    (ts : List (ℕ × List ℕ)) :
    encodeProps cs (iv :: ts) =
      encodeTuple (cs.getD iv.1 ⟨.boolT, false⟩).type iv.1 iv.2 ++
        encodeProps cs ts := by
  simp [encodeProps]

lemma encodeProps_append (cs : List FgbColumn) (a b : List (ℕ × List ℕ)) :
    encodeProps cs (a ++ b) = encodeProps cs a ++ encodeProps cs b := by
  simp [encodeProps]

lemma encodeTuple_length_ge_two (t : FColumnType) (i : ℕ) (v : List ℕ) :
    2 ≤ (encodeTuple t i v).length := by
  cases h : fixedWidth t <;> simp [encodeTuple, h, u16le, u32le]

/-- Running the decode loop over a well-formed encoded tuple list:
either a duplicate aborts with `CorruptData`, or the loop reaches the
trailing bytes with a field-set state that contains every stored
tuple's index. -/
lemma parsePropStream_encodeProps (cs : List FgbColumn)
    (dtOK : List ℕ → Bool) (hcs : cs.length ≤ 65536) :
    ∀ (ts : List (ℕ × List ℕ)) (σ : Finset ℕ) (rest : List ℕ),
      (∀ iv ∈ ts, iv.1 < cs.length ∧
        wfTupleVal (cs.getD iv.1 ⟨.boolT, false⟩).type iv.2) →
      parsePropStream (some cs) dtOK (encodeProps cs ts ++ rest) σ =
          .error .corruptData ∨
      ∃ σ' : Finset ℕ, σ ⊆ σ' ∧
        (∀ iv ∈ ts,
          storedTuple (cs.getD iv.1 ⟨.boolT, false⟩) dtOK iv.2 →
            iv.1 ∈ σ') ∧
        parsePropStream (some cs) dtOK (encodeProps cs ts ++ rest) σ =
          parsePropStream (some cs) dtOK rest σ' := by
  intro ts
  induction ts with
  | nil =>
    intro σ rest _
    exact Or.inr ⟨σ, Finset.Subset.refl σ, by simp, by rw [encodeProps_nil,
      List.nil_append]⟩
  | cons iv ts ih =>
    intro σ rest hwf
    obtain ⟨hrange, hwfiv⟩ := hwf iv (by simp)
    have hstep := parsePropStream_encodeTuple cs dtOK iv.1 iv.2
      (encodeProps cs ts ++ rest) σ (by omega) hrange hwfiv
    rw [encodeProps_cons, List.append_assoc]
    by_cases hσ : iv.1 ∈ σ
    · rw [hstep, if_pos hσ]
      exact Or.inl rfl
    · rw [hstep, if_neg hσ]
      set σ₁ := if storedTuple (cs.getD iv.1 ⟨.boolT, false⟩) dtOK iv.2
        then insert iv.1 σ else σ with hσ₁
      have hsub1 : σ ⊆ σ₁ := by
        rw [hσ₁]
        split_ifs
        · exact Finset.subset_insert _ σ
        · exact Finset.Subset.refl σ
      rcases ih σ₁ rest (fun jv hjv => hwf jv (by simp [hjv])) with hc | hok
      · exact Or.inl hc
      · obtain ⟨σ', hsub2, hmem, heq⟩ := hok
        refine Or.inr ⟨σ', hsub1.trans hsub2, ?_, heq⟩
        intro jv hjv hst
        rcases List.mem_cons.mp hjv with hjv | hjv
        · subst hjv
          refine hsub2 ?_
          rw [hσ₁, if_pos hst]
          exact Finset.mem_insert_self jv.1 σ
        · exact hmem jv hjv hst

/-! ## OGRFlatGeobufLayer::ICreateFeature geometry guards
(ogrflatgeobuflayer.cpp:2286-2304) -/

/-- A feature geometry as seen by the guards: emptiness and its
`OGRwkbGeometryType` code. -/
structure FgbGeometry where
  isEmptyG : Bool
  geomType : ℤ
deriving DecidableEq

/-- Layer state relevant to the `ICreateFeature` guards. -/
structure FgbCreateLayerCtx where
  /-- `m_bCreateSpatialIndexAtClose` -/
  createSpatialIndexAtClose : Bool
  /-- `m_geometryType == GeometryType::Unknown` -/
  geometryTypeUnknown : Bool
  /-- declared layer geometry type `m_eGType` -/
  eGType : ℤ
deriving DecidableEq

/-- Outcome of submitting a feature to the writer. -/
inductive CreateFeatureOutcome
  | written
  | failed
deriving DecidableEq

/-- `ogrGeometry == nullptr || ogrGeometry->IsEmpty()`
(ogrflatgeobuflayer.cpp:2287). -/
def geomNullOrEmpty : Option FgbGeometry → Bool
  | none => true
  | some gg => gg.isEmptyG

/-- `ogrGeometry != nullptr && m_geometryType != GeometryType::Unknown &&
ogrGeometry->getGeometryType() != m_eGType` (ogrflatgeobuflayer.cpp:2294-2295). -/
def geomTypeMismatch (ctx : FgbCreateLayerCtx) : Option FgbGeometry → Bool
  | none => false
  | some gg => !ctx.geometryTypeUnknown && decide (gg.geomType ≠ ctx.eGType)

/-- `OGRFlatGeobufLayer::ICreateFeature`: the property-serialization
stage (which can only exit with a failure) is abstracted as `propsOk`;
then the two geometry guards run in source order; afterwards the
feature record is serialized and written. -/
def iCreateFeature (ctx : FgbCreateLayerCtx) (propsOk : Bool)
    (g : Option FgbGeometry) : CreateFeatureOutcome :=
  if propsOk = false then .failed
  else if ctx.createSpatialIndexAtClose && geomNullOrEmpty g then .failed
  else if geomTypeMismatch ctx g then .failed
  else .written

/-! ## OGRFlatGeobufLayer::CreateFinalFile, empty-dataset branch, and
OGRFlatGeobufLayer::Open (ogrflatgeobuflayer.cpp:537-588, 2537-2630) -/

/-- The on-disk dataset as far as the header-level reader logic is
concerned: feature count and index node size recorded in the header,
the optional packed-index block, and the feature records. -/
structure FgbFileModel where
  featuresCount : ℕ
  indexNodeSize : ℕ
  indexBlock : Option ℕ
  featureRecords : List ℕ
deriving DecidableEq

/-- Modelled from the spec: the initial value of the writer's
`m_indexNodeSize` member.  The member is declared (with its
initializer) in `ogr_flatgeobuf.h`, which is not among these sources;
the second write pass sets it to 16 only after the empty-layer check
(ogrflatgeobuflayer.cpp:594), and the spec requires the empty dataset
to contain "no index block", so the initial value is 0. -/
def writerInitialIndexNodeSize : ℕ := 0

/-- Writer state at close time (indexed path). -/
structure WriterCloseState where
  writeOffset : ℕ
  featuresCount : ℕ
  indexNodeSize : ℕ
deriving DecidableEq

/-- `OGRFlatGeobufLayer::CreateFinalFile`, spatial-index-requested path
(ogrflatgeobuflayer.cpp:574-588): if nothing was written, write a
header with feature count 0 and the current `m_indexNodeSize`, no
index block and no records, and bail; otherwise perform the second
pass, abstracted here as `secondPass`. -/
def createFinalFileIndexed (secondPass : WriterCloseState → Option FgbFileModel)
    (w : WriterCloseState) : Option FgbFileModel :=
  if w.writeOffset = 0 ∨ w.featuresCount = 0 then
    some { featuresCount := 0, indexNodeSize := w.indexNodeSize,
           indexBlock := none, featureRecords := [] }
  else secondPass w

/-- Header facts exposed by a successfully opened layer. -/
structure OpenedLayer where
  featuresCount : ℕ
  indexNodeSize : ℕ
deriving DecidableEq

/-- `featuresCount > min(size_t max / 8, 100 * 1000 * 1000 * 1000)`
(ogrflatgeobuflayer.cpp:2593-2595). -/
def maxFeaturesCount : ℕ := min ((2 ^ 64 - 1) / 8) (100 * 1000 * 1000 * 1000)

/-- `OGRFlatGeobufLayer::Open` header-level logic
(ogrflatgeobuflayer.cpp:2591-2626): reject an excessive feature count;
when the header advertises an index (`index_node_size > 0`) compute the
tree size (`PackedRTree::size`, an external primitive that may throw,
abstracted as `treeSize` returning `none` on failure) to skip the index
block; otherwise open directly. -/
def openLayerModel (treeSize : ℕ → Option ℕ) (f : FgbFileModel) :
    Option OpenedLayer :=
  if f.featuresCount > maxFeaturesCount then none
  else if f.indexNodeSize > 0 then
    match treeSize f.featuresCount with
    | none => none
    | some _ => some ⟨f.featuresCount, f.indexNodeSize⟩
  else some ⟨f.featuresCount, f.indexNodeSize⟩

/-! ## Geometry queries on the point array (ogrlinestring.cpp)

A curve's XY plane is a list of points; C++ doubles are idealised as
real numbers.  The C++ accesses `paoPoints[i]` are always in bounds at
their use sites, so out-of-range list reads (defaulting to the origin)
never occur under the stated hypotheses. -/

/-- `paoPoints[i].x`. -/
def px (pts : List (ℝ × ℝ)) (i : ℕ) : ℝ := (pts.getD i (0, 0)).1

/-- `paoPoints[i].y`. -/
def py (pts : List (ℝ × ℝ)) (i : ℕ) : ℝ := (pts.getD i (0, 0)).2

/-- The Green/shoelace accumulation shared by
`OGRSimpleCurve::get_LinearArea` (ogrlinestring.cpp:2994-3003) and the
`OGRLineString::isClockwise` fallback (ogrlinestring.cpp:3366-3375):
`x0*(y1 - y[n-1]) + Σ_{i=1}^{n-2} x_i*(y_{i+1} - y_{i-1}) +
x[n-1]*(y0 - y[n-2])`. -/
def greenSum (pts : List (ℝ × ℝ)) : ℝ :=
  let n := pts.length
  px pts 0 * (py pts 1 - py pts (n - 1)) +
    (∑ i ∈ Finset.range (n - 2), px pts (i + 1) * (py pts (i + 2) - py pts i)) +
    px pts (n - 1) * (py pts 0 - py pts (n - 2))

/-- `OGRSimpleCurve::get_LinearArea` (ogrlinestring.cpp:2983-3006).
`wkbSizeNonZero` stands for `WkbSize() != 0`, i.e. the curve is not an
`OGRLinearRing` (whose `WkbSize()` is 0), so the closure check
applies. -/
noncomputable def get_LinearArea (wkbSizeNonZero : Bool)
    (pts : List (ℝ × ℝ)) : ℝ :=
  if pts.length < 2 ∨
      (wkbSizeNonZero = true ∧
        (px pts 0 ≠ px pts (pts.length - 1) ∨
         py pts 0 ≠ py pts (pts.length - 1))) then 0
  else 0.5 * |greenSum pts|

/-- Candidate `i` replaces the current pivot `v`
(`paoPoints[i].y < paoPoints[v].y || (equal y && paoPoints[i].x >
paoPoints[v].x)`, ogrlinestring.cpp:3295-3297). -/
def lowerRightmost (pts : List (ℝ × ℝ)) (i v : ℕ) : Prop :=
  py pts i < py pts v ∨ (py pts i = py pts v ∧ px pts i > px pts v)

/-- Candidate `i` coincides with the current pivot `v`
(ogrlinestring.cpp:3302-3303). -/
def samePoint (pts : List (ℝ × ℝ)) (i v : ℕ) : Prop :=
  py pts i = py pts v ∧ px pts i = px pts v

section ClassicalBranching

open scoped Classical

/-- One iteration of the pivot-search loop of
`OGRLineString::isClockwise` (ogrlinestring.cpp:3292-3309): a strictly
lower-rightmost candidate becomes the pivot and clears the fallback
flag; a coincident candidate sets it. -/
noncomputable def pivotStep (pts : List (ℝ × ℝ)) (st : ℕ × Prop) (i : ℕ) :
    ℕ × Prop :=
  if lowerRightmost pts i st.1 then (i, False)
  else if samePoint pts i st.1 then (st.1, True)
  else st

/-- The pivot-search loop over `i = 1 … nPointCount-2`. -/
noncomputable def pivotScan (pts : List (ℝ × ℝ)) : ℕ × Prop :=
  (List.range' 1 (pts.length - 2)).foldl (pivotStep pts) (0, False)

/-- `epsilonEqual` with `EPSILON = 1.0E-5` applied to both coordinates
(ogrlinestring.cpp:3318-3323). -/
def epsilonNear (pts : List (ℝ × ℝ)) (a v : ℕ) : Prop :=
  |px pts a - px pts v| < 1e-5 ∧ |py pts a - py pts v| < 1e-5

/-- Index of the pivot's predecessor (`next = v - 1; if (next < 0)
next = nPointCount - 1 - 1`, ogrlinestring.cpp:3312-3316). -/
def prevIndex (n v : ℕ) : ℕ := if v = 0 then n - 2 else v - 1

/-- Index of the pivot's successor (`next = v + 1; if (next >=
nPointCount - 1) next = 0`, ogrlinestring.cpp:3334-3338). -/
def nextIndex (n v : ℕ) : ℕ := if v + 1 ≥ n - 1 then 0 else v + 1

/-- `OGRLineString::isClockwise` (ogrlinestring.cpp:3279-3378). -/
noncomputable def isClockwise (pts : List (ℝ × ℝ)) : Bool :=
  let n := pts.length
  if n < 2 then true
  else
    let st := pivotScan pts
    let v := st.1
    let prev := prevIndex n v
    let fb1 := st.2 ∨ epsilonNear pts prev v
    let dx0 := px pts prev - px pts v
    let dy0 := py pts prev - py pts v
    let nxt := nextIndex n v
    let fb2 := fb1 ∨ epsilonNear pts nxt v
    let dx1 := px pts nxt - px pts v
    let dy1 := py pts nxt - py pts v
    let crossproduct := dx1 * dy0 - dx0 * dy1
    if ¬fb2 ∧ crossproduct > 0 then false
    else if ¬fb2 ∧ crossproduct < 0 then true
    else decide (greenSum pts < 0)

end ClassicalBranching

/-! ## Claim theorems: C2, C3, C8, C9 -/

/-- C3 counterexample: the growth policy is keyed on the current
logical point count being zero, not on "first allocation".  Grow the
empty curve to 5 points, shrink to 0 (capacity stays 5), then grow to
100: this is not the first allocation, yet the new capacity is exactly
100, not 100 + 100/3 = 133 as the claim states. -/
theorem setNumPoints_growth_counterexample :
    setNumPoints emptyCurveBuf 5 =
      some (⟨5, 5, some 5, none, none, false, false⟩,
            [AllocEvent.reallocXY 5]) ∧
    setNumPoints ⟨5, 5, some 5, none, none, false, false⟩ 0 =
      some (⟨0, 5, some 5, none, none, false, false⟩, []) ∧
    setNumPoints ⟨0, 5, some 5, none, none, false, false⟩ 100 =
      some (⟨100, 100, some 100, none, none, false, false⟩,
            [AllocEvent.freeArrays, AllocEvent.reallocXY 100]) ∧
    (100 : ℕ) ≠ 100 + 100 / 3 := by
  refine ⟨?_, ?_, ?_, by norm_num⟩ <;> decide

/-- C3 (amended): when `setNumPoints(n)` must grow the buffer
(`n` above the current capacity and within the point limit), the new
capacity is exactly `n` whenever the current logical point count is 0
(in particular on first allocation) or `n + n/3` would exceed
`INT_MAX / sizeof(OGRRawPoint)`, and `n + n/3` otherwise; all present
planes end reallocated to that same capacity; and when the current
logical count is 0 and a backing array exists, the old arrays are
freed before any reallocation. -/
theorem setNumPoints_growth (s : CurveBufState) (n : ℕ)
    (hgrow : n > s.nPointCapacity) (hlim : n ≤ maxPointsLimit) :
    ∃ s' ev, setNumPoints s n = some (s', ev) ∧
      s'.nPointCapacity =
        (if s.nPointCount = 0 ∨ n > maxPointsLimit - n / 3
         then n else n + n / 3) ∧
      s'.paoPoints = some s'.nPointCapacity ∧
      (s.hasZ = true → s'.padfZ = some s'.nPointCapacity) ∧
      (s.hasM = true → s'.padfM = some s'.nPointCapacity) ∧
      s'.nPointCount = n ∧
      (s.nPointCount = 0 → s.paoPoints ≠ none →
        ∃ rest, ev = AllocEvent.freeArrays :: rest ∧
          AllocEvent.reallocXY s'.nPointCapacity ∈ rest) := by
  have hnotbig : ¬ n > maxPointsLimit := not_lt.mpr hlim
  simp only [setNumPoints, if_pos hgrow, if_neg hnotbig]
  by_cases hfree : s.nPointCount = 0 ∧ s.paoPoints ≠ none <;>
    by_cases hz : s.hasZ <;> by_cases hm : s.hasM <;>
      simp only [hfree, hz, hm, if_true, if_false, ite_true, ite_false] <;>
      refine ⟨_, _, rfl, ?_, ?_, ?_, ?_, ?_, ?_⟩ <;>
      simp_all

/-- C3 witness: growing a 2-point curve (with Z and M planes) from
capacity 2 to 30 points yields capacity 30 + 10 = 40 on every plane. -/
theorem setNumPoints_growth_witness :
    ∃ s' ev,
      setNumPoints ⟨2, 2, some 2, some 2, some 2, true, true⟩ 30
        = some (s', ev) ∧
      s'.nPointCapacity = (if (2 : ℕ) = 0 ∨ 30 > maxPointsLimit - 30 / 3
         then 30 else 30 + 30 / 3) ∧
      s'.paoPoints = some s'.nPointCapacity ∧
      s'.padfZ = some s'.nPointCapacity ∧
      s'.padfM = some s'.nPointCapacity := by
  obtain ⟨s', ev, h1, h2, h3, h4, h5, -⟩ :=
    setNumPoints_growth ⟨2, 2, some 2, some 2, some 2, true, true⟩ 30
      (by norm_num) (by norm_num [maxPointsLimit])
  exact ⟨s', ev, h1, h2, h3, h4 rfl, h5 rfl⟩

/-! ## Pivot-search loop invariants for isClockwise -/

lemma lowerRightmost_trans (pts : List (ℝ × ℝ)) {a b c : ℕ}
    (hab : lowerRightmost pts a b) (hbc : lowerRightmost pts b c) :
    lowerRightmost pts a c := by
  rcases hab with h | ⟨hy, hx⟩ <;> rcases hbc with h' | ⟨hy', hx'⟩
  · exact Or.inl (h.trans h')
  · exact Or.inl (hy' ▸ h)
  · exact Or.inl (hy ▸ h')
  · exact Or.inr ⟨hy.trans hy', lt_trans hx' hx⟩

lemma lowerRightmost_irrefl (pts : List (ℝ × ℝ)) (a : ℕ) :
    ¬ lowerRightmost pts a a := by
  rintro (h | ⟨-, h⟩) <;> exact lt_irrefl _ h

lemma samePoint_lowerRightmost_iff (pts : List (ℝ × ℝ)) {a b : ℕ}
    (hs : samePoint pts a b) (c : ℕ) :
    lowerRightmost pts a c ↔ lowerRightmost pts b c := by
  obtain ⟨hy, hx⟩ := hs
  unfold lowerRightmost
  rw [hy, hx]

/-- Invariants of the pivot-search loop after scanning `i = 1 … k`:
the pivot is within range, no scanned vertex (nor vertex 0) is
lower-rightmost than it, and the fallback flag holds exactly when the
final pivot's coordinates occur at a second scanned index. -/
lemma pivotFold_spec (pts : List (ℝ × ℝ)) (k : ℕ) :
    ((List.range' 1 k).foldl (pivotStep pts) (0, False)).1 ≤ k ∧
    (∀ i ≤ k, ¬ lowerRightmost pts i
      ((List.range' 1 k).foldl (pivotStep pts) (0, False)).1) ∧
    (((List.range' 1 k).foldl (pivotStep pts) (0, False)).2 ↔
      ∃ i, 1 ≤ i ∧ i ≤ k ∧
        i ≠ ((List.range' 1 k).foldl (pivotStep pts) (0, False)).1 ∧
        samePoint pts i
          ((List.range' 1 k).foldl (pivotStep pts) (0, False)).1) := by
  induction k with
  | zero =>
    refine ⟨le_refl 0, ?_, ?_⟩
    · intro i hi
      interval_cases i
      exact lowerRightmost_irrefl pts 0
    · simp only [List.range'_zero, List.foldl_nil, false_iff]
      rintro ⟨i, hi1, hi0, -, -⟩
      omega
  | succ k ih =>
    obtain ⟨ihv, ihmin, ihflag⟩ := ih
    have hconcat : List.range' 1 (k + 1) = List.range' 1 k ++ [1 + 1 * k] := by
      rw [List.range'_concat]
    rw [hconcat, List.foldl_append]
    set st := (List.range' 1 k).foldl (pivotStep pts) (0, False) with hst
    simp only [List.foldl_cons, List.foldl_nil]
    have hidx : 1 + 1 * k = k + 1 := by ring
    rw [hidx]
    by_cases hlow : lowerRightmost pts (k + 1) st.1
    · rw [pivotStep, if_pos hlow]
      refine ⟨le_refl _, ?_, ?_⟩
      · intro i hi hbad
        rcases Nat.lt_succ_iff_lt_or_eq.mp (Nat.lt_succ_of_le hi) with hik | hik
        · exact ihmin i (Nat.lt_succ_iff.mp hik)
            (lowerRightmost_trans pts hbad hlow)
        · exact lowerRightmost_irrefl pts (k + 1) (hik ▸ hbad)
      · simp only [false_iff]
        rintro ⟨i, hi1, hik, hne, hsame⟩
        have hik' : i ≤ k := by
          rcases Nat.lt_succ_iff_lt_or_eq.mp (Nat.lt_succ_of_le hik) with h | h
          · exact Nat.lt_succ_iff.mp h
          · exact absurd h hne
        exact ihmin i hik'
          ((samePoint_lowerRightmost_iff pts hsame st.1).mpr hlow)
    · rw [pivotStep, if_neg hlow]
      by_cases hsame : samePoint pts (k + 1) st.1
      · rw [if_pos hsame]
        refine ⟨Nat.le_succ_of_le ihv, ?_, ?_⟩
        · intro i hi
          rcases Nat.lt_succ_iff_lt_or_eq.mp (Nat.lt_succ_of_le hi) with h | h
          · exact ihmin i (Nat.lt_succ_iff.mp h)
          · exact h ▸ hlow
        · simp only [true_iff]
          exact ⟨k + 1, Nat.succ_le_succ (Nat.zero_le k), le_refl _,
            by omega, hsame⟩
      · rw [if_neg hsame]
        refine ⟨Nat.le_succ_of_le ihv, ?_, ?_⟩
        · intro i hi
          rcases Nat.lt_succ_iff_lt_or_eq.mp (Nat.lt_succ_of_le hi) with h | h
          · exact ihmin i (Nat.lt_succ_iff.mp h)
          · exact h ▸ hlow
        · rw [ihflag]
          constructor
          · rintro ⟨i, hi1, hik, hne, hs⟩
            exact ⟨i, hi1, Nat.le_succ_of_le hik, hne, hs⟩
          · rintro ⟨i, hi1, hik, hne, hs⟩
            rcases Nat.lt_succ_iff_lt_or_eq.mp (Nat.lt_succ_of_le hik) with h | h
            · exact ⟨i, hi1, Nat.lt_succ_iff.mp h, hne, hs⟩
            · exact absurd (h ▸ hs) hsame

/-! ## Claim theorems: C7, C10 -/

/-- C7: `get_LinearArea` returns half the absolute value of the
shoelace (Green's theorem) sum; it returns 0 for fewer than 2 points
or when the closure check (applied when `WkbSize() != 0`) detects an
unclosed curve; on the closed unit square ring it returns 1. -/
theorem get_LinearArea_spec (b : Bool) (pts : List (ℝ × ℝ)) :
    (pts.length < 2 → get_LinearArea b pts = 0) ∧
    (b = true →
      (px pts 0 ≠ px pts (pts.length - 1) ∨
       py pts 0 ≠ py pts (pts.length - 1)) →
      get_LinearArea b pts = 0) ∧
    (2 ≤ pts.length →
      px pts 0 = px pts (pts.length - 1) →
      py pts 0 = py pts (pts.length - 1) →
      get_LinearArea b pts = 0.5 * |greenSum pts|) ∧
    (b = false → 2 ≤ pts.length →
      get_LinearArea b pts = 0.5 * |greenSum pts|) ∧
    get_LinearArea true [(0, 0), (1, 0), (1, 1), (0, 1), (0, 0)] = 1 := by
  refine ⟨?_, ?_, ?_, ?_, ?_⟩
  · intro h
    simp [get_LinearArea, h]
  · intro hb hopen
    subst hb
    simp [get_LinearArea, hopen]
  · intro hlen hx hy
    rw [get_LinearArea, if_neg]
    push_neg
    refine ⟨by omega, fun hb => ⟨hx, hy⟩⟩
  · intro hb hlen
    subst hb
    rw [get_LinearArea, if_neg]
    simp only [Bool.false_eq_true, false_and, or_false]
    omega
  · rw [get_LinearArea, if_neg]
    · have h2 : greenSum [((0 : ℝ), (0 : ℝ)), (1, 0), (1, 1), (0, 1), (0, 0)]
          = 2 := by
        simp [greenSum, px, py, Finset.sum_range_succ]
        norm_num
      rw [h2]
      norm_num
    · simp [px, py]

/-- C7 witness: the general half-shoelace form applied to the closed
unit square. -/
theorem get_LinearArea_spec_witness :
    get_LinearArea true [(0, 0), (1, 0), (1, 1), (0, 1), (0, 0)]
      = 0.5 * |greenSum [(0, 0), (1, 0), (1, 1), (0, 1), (0, 0)]| :=
  (get_LinearArea_spec true _).2.2.1 (by simp) (by simp [px, py])
    (by simp [px, py])

/-- Away from the degenerate cases, the cross-product sign decides
the orientation. -/
lemma isClockwise_no_fallback (pts : List (ℝ × ℝ)) (hn : 2 ≤ pts.length)
    (hdup : ¬ ∃ i, 1 ≤ i ∧ i ≤ pts.length - 2 ∧ i ≠ (pivotScan pts).1 ∧
      samePoint pts i (pivotScan pts).1)
    (hnearp : ¬ epsilonNear pts (prevIndex pts.length (pivotScan pts).1)
      (pivotScan pts).1)
    (hnearn : ¬ epsilonNear pts (nextIndex pts.length (pivotScan pts).1)
      (pivotScan pts).1) :
    ((px pts (nextIndex pts.length (pivotScan pts).1) -
          px pts (pivotScan pts).1) *
        (py pts (prevIndex pts.length (pivotScan pts).1) -
          py pts (pivotScan pts).1) -
      (px pts (prevIndex pts.length (pivotScan pts).1) -
          px pts (pivotScan pts).1) *
        (py pts (nextIndex pts.length (pivotScan pts).1) -
          py pts (pivotScan pts).1) > 0 → isClockwise pts = false) ∧
    ((px pts (nextIndex pts.length (pivotScan pts).1) -
          px pts (pivotScan pts).1) *
        (py pts (prevIndex pts.length (pivotScan pts).1) -
          py pts (pivotScan pts).1) -
      (px pts (prevIndex pts.length (pivotScan pts).1) -
          px pts (pivotScan pts).1) *
        (py pts (nextIndex pts.length (pivotScan pts).1) -
          py pts (pivotScan pts).1) < 0 → isClockwise pts = true) := by
  obtain ⟨hv, hmin, hflag⟩ := pivotFold_spec pts (pts.length - 2)
  have hscan : pivotScan pts =
      (List.range' 1 (pts.length - 2)).foldl (pivotStep pts) (0, False) := rfl
  have hlt : ¬ pts.length < 2 := by omega
  have hfb : ¬ (pivotScan pts).2 := by
    rw [hscan] at hdup ⊢
    exact fun h => hdup (hflag.mp h)
  have hnfb2 : ¬ (((pivotScan pts).2 ∨
      epsilonNear pts (prevIndex pts.length (pivotScan pts).1)
        (pivotScan pts).1) ∨
      epsilonNear pts (nextIndex pts.length (pivotScan pts).1)
        (pivotScan pts).1) := by
    rintro ((h | h) | h)
    exacts [hfb h, hnearp h, hnearn h]
  constructor <;> intro hcross
  · simp only [isClockwise, if_neg hlt]
    rw [if_pos ⟨hnfb2, hcross⟩]
  · simp only [isClockwise, if_neg hlt]
    rw [if_neg (fun h => lt_asymm hcross h.2), if_pos ⟨hnfb2, hcross⟩]

/-- In the degenerate cases the Green-formula sign decides. -/
lemma isClockwise_fallback (pts : List (ℝ × ℝ)) (hn : 2 ≤ pts.length)
    (hdeg : (∃ i, 1 ≤ i ∧ i ≤ pts.length - 2 ∧ i ≠ (pivotScan pts).1 ∧
        samePoint pts i (pivotScan pts).1) ∨
      epsilonNear pts (prevIndex pts.length (pivotScan pts).1)
        (pivotScan pts).1 ∨
      epsilonNear pts (nextIndex pts.length (pivotScan pts).1)
        (pivotScan pts).1) :
    isClockwise pts = decide (greenSum pts < 0) := by
  obtain ⟨hv, hmin, hflag⟩ := pivotFold_spec pts (pts.length - 2)
  have hscan : pivotScan pts =
      (List.range' 1 (pts.length - 2)).foldl (pivotStep pts) (0, False) := rfl
  have hlt : ¬ pts.length < 2 := by omega
  have hfb2 : (((pivotScan pts).2 ∨
      epsilonNear pts (prevIndex pts.length (pivotScan pts).1)
        (pivotScan pts).1) ∨
      epsilonNear pts (nextIndex pts.length (pivotScan pts).1)
        (pivotScan pts).1) := by
    rcases hdeg with h | h | h
    · refine Or.inl (Or.inl ?_)
      rw [hscan] at h ⊢
      exact hflag.mpr h
    · exact Or.inl (Or.inr h)
    · exact Or.inr h
  simp only [isClockwise, if_neg hlt]
  rw [if_neg (fun h => h.1 hfb2), if_neg (fun h => h.1 hfb2)]

lemma pivotScan_unitSquareCCW :
    pivotScan [((0 : ℝ), (0 : ℝ)), (1, 0), (1, 1), (0, 1), (0, 0)]
      = (1, False) := by
  have h0 : pivotScan [((0 : ℝ), (0 : ℝ)), (1, 0), (1, 1), (0, 1), (0, 0)]
      = List.foldl
          (pivotStep [((0 : ℝ), (0 : ℝ)), (1, 0), (1, 1), (0, 1), (0, 0)])
          (0, False) [1, 2, 3] := rfl
  rw [h0]
  simp only [List.foldl_cons, List.foldl_nil]
  have s1 : pivotStep [((0 : ℝ), (0 : ℝ)), (1, 0), (1, 1), (0, 1), (0, 0)]
      (0, False) 1 = (1, False) := by
    simp only [pivotStep]
    rw [if_pos]
    norm_num [lowerRightmost, px, py]
  rw [s1]
  have s2 : pivotStep [((0 : ℝ), (0 : ℝ)), (1, 0), (1, 1), (0, 1), (0, 0)]
      (1, False) 2 = (1, False) := by
    simp only [pivotStep]
    rw [if_neg, if_neg]
    · norm_num [samePoint, px, py]
    · norm_num [lowerRightmost, px, py]
  rw [s2]
  have s3 : pivotStep [((0 : ℝ), (0 : ℝ)), (1, 0), (1, 1), (0, 1), (0, 0)]
      (1, False) 3 = (1, False) := by
    simp only [pivotStep]
    rw [if_neg, if_neg]
    · norm_num [samePoint, px, py]
    · norm_num [lowerRightmost, px, py]
  rw [s3]

lemma pivotScan_unitSquareCW :
    pivotScan [((0 : ℝ), (0 : ℝ)), (0, 1), (1, 1), (1, 0), (0, 0)]
      = (3, False) := by
  have h0 : pivotScan [((0 : ℝ), (0 : ℝ)), (0, 1), (1, 1), (1, 0), (0, 0)]
      = List.foldl
          (pivotStep [((0 : ℝ), (0 : ℝ)), (0, 1), (1, 1), (1, 0), (0, 0)])
          (0, False) [1, 2, 3] := rfl
  rw [h0]
  simp only [List.foldl_cons, List.foldl_nil]
  have s1 : pivotStep [((0 : ℝ), (0 : ℝ)), (0, 1), (1, 1), (1, 0), (0, 0)]
      (0, False) 1 = (0, False) := by
    simp only [pivotStep]
    rw [if_neg, if_neg]
    · norm_num [samePoint, px, py]
    · norm_num [lowerRightmost, px, py]
  rw [s1]
  have s2 : pivotStep [((0 : ℝ), (0 : ℝ)), (0, 1), (1, 1), (1, 0), (0, 0)]
      (0, False) 2 = (0, False) := by
    simp only [pivotStep]
    rw [if_neg, if_neg]
    · norm_num [samePoint, px, py]
    · norm_num [lowerRightmost, px, py]
  rw [s2]
  have s3 : pivotStep [((0 : ℝ), (0 : ℝ)), (0, 1), (1, 1), (1, 0), (0, 0)]
      (0, False) 3 = (3, False) := by
    simp only [pivotStep]
    rw [if_pos]
    norm_num [lowerRightmost, px, py]
  rw [s3]

/-- C5: `isClockwise` pivots on the lowest then-rightmost vertex
(greater X wins at equal Y) among the scanned vertices; away from the
degenerate cases the sign of the 2D cross product at the pivot decides
(positive ⇒ counter-clockwise ⇒ false, negative ⇒ clockwise ⇒ true);
when the pivot coordinates are duplicated among the scanned vertices
or a neighbor lies within 1e-5 of the pivot, the signed-area-sign
fallback decides instead; the CCW unit square ring yields false and
its reversal yields true. -/
theorem isClockwise_spec (pts : List (ℝ × ℝ)) (hn : 2 ≤ pts.length) :
    (∀ i ≤ pts.length - 2, ¬ lowerRightmost pts i (pivotScan pts).1) ∧
    ((¬ (∃ i, 1 ≤ i ∧ i ≤ pts.length - 2 ∧ i ≠ (pivotScan pts).1 ∧
          samePoint pts i (pivotScan pts).1) →
      ¬ epsilonNear pts (prevIndex pts.length (pivotScan pts).1)
          (pivotScan pts).1 →
      ¬ epsilonNear pts (nextIndex pts.length (pivotScan pts).1)
          (pivotScan pts).1 →
      ((px pts (nextIndex pts.length (pivotScan pts).1) -
            px pts (pivotScan pts).1) *
          (py pts (prevIndex pts.length (pivotScan pts).1) -
            py pts (pivotScan pts).1) -
        (px pts (prevIndex pts.length (pivotScan pts).1) -
            px pts (pivotScan pts).1) *
          (py pts (nextIndex pts.length (pivotScan pts).1) -
            py pts (pivotScan pts).1) > 0 → isClockwise pts = false) ∧
      ((px pts (nextIndex pts.length (pivotScan pts).1) -
            px pts (pivotScan pts).1) *
          (py pts (prevIndex pts.length (pivotScan pts).1) -
            py pts (pivotScan pts).1) -
        (px pts (prevIndex pts.length (pivotScan pts).1) -
            px pts (pivotScan pts).1) *
          (py pts (nextIndex pts.length (pivotScan pts).1) -
            py pts (pivotScan pts).1) < 0 → isClockwise pts = true)) ∧
     ((∃ i, 1 ≤ i ∧ i ≤ pts.length - 2 ∧ i ≠ (pivotScan pts).1 ∧
          samePoint pts i (pivotScan pts).1) ∨
        epsilonNear pts (prevIndex pts.length (pivotScan pts).1)
          (pivotScan pts).1 ∨
        epsilonNear pts (nextIndex pts.length (pivotScan pts).1)
          (pivotScan pts).1 →
      isClockwise pts = decide (greenSum pts < 0))) ∧
    isClockwise [(0, 0), (1, 0), (1, 1), (0, 1), (0, 0)] = false ∧
    isClockwise [(0, 0), (0, 1), (1, 1), (1, 0), (0, 0)] = true := by
  obtain ⟨hv, hmin, hflag⟩ := pivotFold_spec pts (pts.length - 2)
  have hscan : pivotScan pts =
      (List.range' 1 (pts.length - 2)).foldl (pivotStep pts) (0, False) := rfl
  refine ⟨by rw [hscan]; exact hmin, ⟨?_, ?_⟩, ?_, ?_⟩
  · exact fun hdup hnearp hnearn =>
      isClockwise_no_fallback pts hn hdup hnearp hnearn
  · exact isClockwise_fallback pts hn
  · refine (isClockwise_no_fallback _ (by norm_num) ?_ ?_ ?_).1 ?_
    · rintro ⟨i, h1, hle, hne, hy, hx⟩
      rw [pivotScan_unitSquareCCW] at hne hy hx
      simp only [List.length_cons, List.length_nil] at hle
      interval_cases i
      · exact hne rfl
      · norm_num [py] at hy
      · norm_num [py] at hy
    · rw [pivotScan_unitSquareCCW]
      norm_num [epsilonNear, prevIndex, px, py, abs_lt]
    · rw [pivotScan_unitSquareCCW]
      norm_num [epsilonNear, nextIndex, px, py, abs_lt]
    · rw [pivotScan_unitSquareCCW]
      norm_num [prevIndex, nextIndex, px, py]
  · refine (isClockwise_no_fallback _ (by norm_num) ?_ ?_ ?_).2 ?_
    · rintro ⟨i, h1, hle, hne, hy, hx⟩
      rw [pivotScan_unitSquareCW] at hne hy hx
      simp only [List.length_cons, List.length_nil] at hle
      interval_cases i
      · norm_num [py] at hy
      · norm_num [py] at hy
      · exact hne rfl
    · rw [pivotScan_unitSquareCW]
      norm_num [epsilonNear, prevIndex, px, py, abs_lt]
    · rw [pivotScan_unitSquareCW]
      norm_num [epsilonNear, nextIndex, px, py, abs_lt]
    · rw [pivotScan_unitSquareCW]
      norm_num [prevIndex, nextIndex, px, py]

/-- C5 witness: the concrete convex ring facts, extracted by applying
the theorem at the CCW unit square. -/
theorem isClockwise_spec_witness :
    isClockwise [((0 : ℝ), (0 : ℝ)), (1, 0), (1, 1), (0, 1), (0, 0)]
        = false ∧
    isClockwise [((0 : ℝ), (0 : ℝ)), (0, 1), (1, 1), (1, 0), (0, 0)]
        = true :=
  ⟨(isClockwise_spec [((0 : ℝ), (0 : ℝ)), (1, 0), (1, 1), (0, 1), (0, 0)]
      (by norm_num)).2.2.1,
   (isClockwise_spec [((0 : ℝ), (0 : ℝ)), (1, 0), (1, 1), (0, 1), (0, 0)]
      (by norm_num)).2.2.2⟩

/-- C10: a curve with fewer than 2 points (including the empty curve)
is classified by `isClockwise` as clockwise (`TRUE`), not as an error
or as counter-clockwise. -/
theorem isClockwise_fewer_than_two_points (pts : List (ℝ × ℝ))
    (h : pts.length < 2) : isClockwise pts = true := by
  simp [isClockwise, h]

/-- C10 witness: the empty curve and a one-point curve. -/
theorem isClockwise_fewer_than_two_points_witness :
    isClockwise [] = true ∧ isClockwise [(3, 4)] = true :=
  ⟨isClockwise_fewer_than_two_points [] (by simp),
   isClockwise_fewer_than_two_points [(3, 4)] (by simp)⟩

/-! ## OGRSimpleCurve::Value (ogrlinestring.cpp:2102-2144)

Points carry x, y, z; `is3D` stands for `getCoordinateDimension() == 3`.
The output point is a fresh `OGRPoint` whose z defaults to 0 and is set
only on 3D curves. -/

/-- An xyz vertex. -/
abbrev XYZ := ℝ × ℝ × ℝ

/-- `paoPoints[i].x`. -/
def vx (pts : List XYZ) (i : ℕ) : ℝ := (pts.getD i (0, 0, 0)).1

/-- `paoPoints[i].y`. -/
def vy (pts : List XYZ) (i : ℕ) : ℝ := (pts.getD i (0, 0, 0)).2.1

/-- `padfZ[i]`. -/
def vz (pts : List XYZ) (i : ℕ) : ℝ := (pts.getD i (0, 0, 0)).2.2

/-- `sqrt(dfDeltaX * dfDeltaX + dfDeltaY * dfDeltaY)` for segment `i`
(ogrlinestring.cpp:2115-2118). -/
noncomputable def segLen (pts : List XYZ) (i : ℕ) : ℝ :=
  Real.sqrt ((vx pts (i + 1) - vx pts i) * (vx pts (i + 1) - vx pts i) +
    (vy pts (i + 1) - vy pts i) * (vy pts (i + 1) - vy pts i))

/-- `StartPoint` as filled into a fresh output point. -/
def startPoint3 (is3D : Bool) (pts : List XYZ) : XYZ :=
  (vx pts 0, vy pts 0, if is3D then vz pts 0 else 0)

/-- `EndPoint` as filled into a fresh output point. -/
def endPoint3 (is3D : Bool) (pts : List XYZ) : XYZ :=
  (vx pts (pts.length - 1), vy pts (pts.length - 1),
   if is3D then vz pts (pts.length - 1) else 0)

/-- The segment walk of `OGRSimpleCurve::Value`
(ogrlinestring.cpp:2113-2143): accumulate positive segment lengths,
interpolate inside the first bracketing positive-length segment, fall
through to `EndPoint`. -/
noncomputable def valueLoop (is3D : Bool) (pts : List XYZ) (d : ℝ)
    (i : ℕ) (acc : ℝ) : XYZ :=
  if _h : i < pts.length - 1 then
    if 0 < segLen pts i then
      if acc ≤ d ∧ acc + segLen pts i ≥ d then
        (vx pts i * (1 - (d - acc) / segLen pts i) +
           vx pts (i + 1) * ((d - acc) / segLen pts i),
         vy pts i * (1 - (d - acc) / segLen pts i) +
           vy pts (i + 1) * ((d - acc) / segLen pts i),
         if is3D then
           vz pts i * (1 - (d - acc) / segLen pts i) +
             vz pts (i + 1) * ((d - acc) / segLen pts i)
         else 0)
      else valueLoop is3D pts d (i + 1) (acc + segLen pts i)
    else valueLoop is3D pts d (i + 1) acc
  else endPoint3 is3D pts
termination_by pts.length - 1 - i
decreasing_by all_goals omega

/-- `OGRSimpleCurve::Value(dfDistance)` (ogrlinestring.cpp:2102-2144). -/
noncomputable def curveValue (is3D : Bool) (pts : List XYZ) (d : ℝ) : XYZ :=
  if d < 0 then startPoint3 is3D pts else valueLoop is3D pts d 0 0

/-- Accumulated length of the segments `[a, b)`. -/
noncomputable def accLen (pts : List XYZ) (a b : ℕ) : ℝ :=
  ∑ j ∈ Finset.Ico a b, segLen pts j

/-- Total planar length of the curve. -/
noncomputable def totalLen (pts : List XYZ) : ℝ :=
  accLen pts 0 (pts.length - 1)

lemma segLen_nonneg (pts : List XYZ) (i : ℕ) : 0 ≤ segLen pts i :=
  Real.sqrt_nonneg _

lemma accLen_nonneg (pts : List XYZ) (a b : ℕ) : 0 ≤ accLen pts a b :=
  Finset.sum_nonneg fun j _ => segLen_nonneg pts j

lemma segLen_eq_zero (pts : List XYZ) (i : ℕ) (h : ¬ 0 < segLen pts i) :
    vx pts (i + 1) = vx pts i ∧ vy pts (i + 1) = vy pts i := by
  have hz : segLen pts i = 0 := le_antisymm (not_lt.mp h) (segLen_nonneg pts i)
  have hsq : (vx pts (i + 1) - vx pts i) * (vx pts (i + 1) - vx pts i) +
      (vy pts (i + 1) - vy pts i) * (vy pts (i + 1) - vy pts i) ≤ 0 :=
    Real.sqrt_eq_zero'.mp hz
  have h1 : (vx pts (i + 1) - vx pts i) * (vx pts (i + 1) - vx pts i) = 0 := by
    nlinarith [mul_self_nonneg (vx pts (i + 1) - vx pts i),
      mul_self_nonneg (vy pts (i + 1) - vy pts i)]
  have h2 : (vy pts (i + 1) - vy pts i) * (vy pts (i + 1) - vy pts i) = 0 := by
    nlinarith [mul_self_nonneg (vx pts (i + 1) - vx pts i),
      mul_self_nonneg (vy pts (i + 1) - vy pts i)]
  constructor
  · have := mul_self_eq_zero.mp h1
    linarith
  · have := mul_self_eq_zero.mp h2
    linarith

/-- If all segments in `[a, a+m)` are degenerate, the endpoints'
X and Y coincide. -/
lemma zero_segments_chain (pts : List XYZ) (a : ℕ) :
    ∀ m : ℕ, (∀ j, a ≤ j → j < a + m → segLen pts j = 0) →
      vx pts (a + m) = vx pts a ∧ vy pts (a + m) = vy pts a := by
  intro m
  induction m with
  | zero => intro _; exact ⟨rfl, rfl⟩
  | succ m ih =>
    intro hz
    have hm := ih fun j hj1 hj2 => hz j hj1 (by omega)
    have hlast : segLen pts (a + m) = 0 := hz (a + m) (by omega) (by omega)
    have := segLen_eq_zero pts (a + m) (by rw [hlast]; exact lt_irrefl 0)
    have hx : vx pts (a + m + 1) = vx pts (a + m) := this.1
    have hy : vy pts (a + m + 1) = vy pts (a + m) := this.2
    constructor
    · show vx pts (a + (m + 1)) = vx pts a
      have : a + (m + 1) = a + m + 1 := by omega
      rw [this, hx, hm.1]
    · show vy pts (a + (m + 1)) = vy pts a
      have : a + (m + 1) = a + m + 1 := by omega
      rw [this, hy, hm.2]

lemma accLen_split_bot (pts : List XYZ) {a b : ℕ} (h : a < b) :
    accLen pts a b = segLen pts a + accLen pts (a + 1) b := by
  unfold accLen
  exact Finset.sum_eq_sum_Ico_succ_bot h _

/-- Walking past the whole curve: if the distance exceeds the
accumulated remaining length, the loop falls through to `EndPoint`. -/
lemma valueLoop_overshoot (is3D : Bool) (pts : List XYZ) (d : ℝ) :
    ∀ (k i : ℕ) (acc : ℝ), pts.length - 1 - i = k →
      acc + accLen pts i (pts.length - 1) < d →
      valueLoop is3D pts d i acc = endPoint3 is3D pts := by
  intro k
  induction k with
  | zero =>
    intro i acc hk _
    rw [valueLoop, dif_neg (by omega)]
  | succ k ih =>
    intro i acc hk hd
    have hi : i < pts.length - 1 := by omega
    have hsplit := accLen_split_bot pts hi
    rw [valueLoop, dif_pos hi]
    by_cases hseg : 0 < segLen pts i
    · rw [if_pos hseg, if_neg]
      · exact ih (i + 1) (acc + segLen pts i) (by omega)
          (by rw [hsplit] at hd; linarith)
      · rintro ⟨-, hbr⟩
        have hrest := accLen_nonneg pts (i + 1) (pts.length - 1)
        rw [hsplit] at hd
        linarith
    · rw [if_neg hseg]
      have hz : segLen pts i = 0 :=
        le_antisymm (not_lt.mp hseg) (segLen_nonneg pts i)
      exact ih (i + 1) acc (by omega)
        (by rw [hsplit, hz] at hd; linarith)

/-- At distance 0 the loop yields the X and Y of the vertex it starts
from (leading degenerate segments are skipped, but their endpoints
coincide). -/
lemma valueLoop_at_zero (is3D : Bool) (pts : List XYZ) :
    ∀ (k i : ℕ), pts.length - 1 - i = k → i ≤ pts.length - 1 →
      (valueLoop is3D pts 0 i 0).1 = vx pts i ∧
      (valueLoop is3D pts 0 i 0).2.1 = vy pts i := by
  intro k
  induction k with
  | zero =>
    intro i hk hle
    have : i = pts.length - 1 := by omega
    rw [valueLoop, dif_neg (by omega), this]
    exact ⟨rfl, rfl⟩
  | succ k ih =>
    intro i hk hle
    have hi : i < pts.length - 1 := by omega
    rw [valueLoop, dif_pos hi]
    by_cases hseg : 0 < segLen pts i
    · rw [if_pos hseg, if_pos ⟨le_refl 0, by linarith⟩]
      constructor
      · show vx pts i * (1 - (0 - 0) / segLen pts i) +
          vx pts (i + 1) * ((0 - 0) / segLen pts i) = vx pts i
        rw [show (0 : ℝ) - 0 = 0 by ring, zero_div]
        ring
      · show vy pts i * (1 - (0 - 0) / segLen pts i) +
          vy pts (i + 1) * ((0 - 0) / segLen pts i) = vy pts i
        rw [show (0 : ℝ) - 0 = 0 by ring, zero_div]
        ring
    · rw [if_neg hseg]
      obtain ⟨hx, hy⟩ := segLen_eq_zero pts i hseg
      obtain ⟨ihx, ihy⟩ := ih (i + 1) (by omega) (by omega)
      exact ⟨by rw [ihx, hx], by rw [ihy, hy]⟩

/-- At exactly the total remaining length the loop yields the X and Y
of the final vertex (trailing degenerate segments coincide with it). -/
lemma valueLoop_at_total (is3D : Bool) (pts : List XYZ) (d : ℝ) :
    ∀ (k i : ℕ) (acc : ℝ), pts.length - 1 - i = k → i ≤ pts.length - 1 →
      d = acc + accLen pts i (pts.length - 1) →
      (valueLoop is3D pts d i acc).1 = vx pts (pts.length - 1) ∧
      (valueLoop is3D pts d i acc).2.1 = vy pts (pts.length - 1) := by
  intro k
  induction k with
  | zero =>
    intro i acc hk hle _
    rw [valueLoop, dif_neg (by omega)]
    exact ⟨rfl, rfl⟩
  | succ k ih =>
    intro i acc hk hle hd
    have hi : i < pts.length - 1 := by omega
    have hsplit := accLen_split_bot pts hi
    have hrest := accLen_nonneg pts (i + 1) (pts.length - 1)
    rw [valueLoop, dif_pos hi]
    by_cases hseg : 0 < segLen pts i
    · by_cases hr : accLen pts (i + 1) (pts.length - 1) ≤ 0
      · have hr0 : accLen pts (i + 1) (pts.length - 1) = 0 :=
          le_antisymm hr hrest
        have hdacc : d = acc + segLen pts i := by
          rw [hd, hsplit, hr0]; ring
        rw [if_pos hseg, if_pos ⟨by nlinarith, by rw [hdacc]⟩]
        have hratio : (d - acc) / segLen pts i = 1 := by
          rw [hdacc]
          field_simp
        have hallz : ∀ j, i + 1 ≤ j → j < pts.length - 1 →
            segLen pts j = 0 := by
          intro j hj1 hj2
          have hsum : ∑ j ∈ Finset.Ico (i + 1) (pts.length - 1),
              segLen pts j = 0 := hr0
          have := (Finset.sum_eq_zero_iff_of_nonneg
            (fun j _ => segLen_nonneg pts j)).mp hsum
          exact this j (Finset.mem_Ico.mpr ⟨hj1, hj2⟩)
        have hchain := zero_segments_chain pts (i + 1)
          (pts.length - 1 - (i + 1))
          (fun j hj1 hj2 => hallz j hj1 (by omega))
        have hidx : i + 1 + (pts.length - 1 - (i + 1)) = pts.length - 1 := by
          omega
        rw [hidx] at hchain
        constructor
        · show vx pts i * (1 - (d - acc) / segLen pts i) +
            vx pts (i + 1) * ((d - acc) / segLen pts i)
            = vx pts (pts.length - 1)
          rw [hratio, hchain.1]; ring
        · show vy pts i * (1 - (d - acc) / segLen pts i) +
            vy pts (i + 1) * ((d - acc) / segLen pts i)
            = vy pts (pts.length - 1)
          rw [hratio, hchain.2]; ring
      · push_neg at hr
        rw [if_pos hseg, if_neg]
        · exact ih (i + 1) (acc + segLen pts i) (by omega) (by omega)
            (by rw [hd, hsplit]; ring)
        · rintro ⟨-, hbr⟩
          rw [hd, hsplit] at hbr
          linarith
    · rw [if_neg hseg]
      have hz : segLen pts i = 0 :=
        le_antisymm (not_lt.mp hseg) (segLen_nonneg pts i)
      exact ih (i + 1) acc (by omega) (by omega)
        (by rw [hd, hsplit, hz]; ring)

/-- The loop interpolates inside the first bracketing positive-length
segment `b`, with ratio `(d - accumulated)/segLen b`; degenerate
segments are never selected. -/
lemma valueLoop_bracket (is3D : Bool) (pts : List XYZ) (d : ℝ) :
    ∀ (k i : ℕ) (acc : ℝ), pts.length - 1 - i = k →
      ∀ b, i ≤ b → b < pts.length - 1 → 0 < segLen pts b →
      acc + accLen pts i b ≤ d →
      d ≤ acc + accLen pts i b + segLen pts b →
      (∀ j, i ≤ j → j < b → 0 < segLen pts j →
        ¬ (acc + accLen pts i j ≤ d ∧
           d ≤ acc + accLen pts i j + segLen pts j)) →
      valueLoop is3D pts d i acc =
        (vx pts b * (1 - (d - (acc + accLen pts i b)) / segLen pts b) +
           vx pts (b + 1) * ((d - (acc + accLen pts i b)) / segLen pts b),
         vy pts b * (1 - (d - (acc + accLen pts i b)) / segLen pts b) +
           vy pts (b + 1) * ((d - (acc + accLen pts i b)) / segLen pts b),
         if is3D then
           vz pts b * (1 - (d - (acc + accLen pts i b)) / segLen pts b) +
             vz pts (b + 1) * ((d - (acc + accLen pts i b)) / segLen pts b)
         else 0) := by
  intro k
  induction k with
  | zero =>
    intro i acc hk b hib hb _ _ _ _
    omega
  | succ k ih =>
    intro i acc hk b hib hb hbpos hlo hhi hfirst
    have hi : i < pts.length - 1 := by omega
    rw [valueLoop, dif_pos hi]
    rcases Nat.eq_or_lt_of_le hib with hieq | hilt
    · subst hieq
      have hacc0 : accLen pts i i = 0 := by
        unfold accLen
        simp
      rw [hacc0] at hlo hhi ⊢
      rw [if_pos hbpos, if_pos ⟨by linarith, by linarith⟩, add_zero]
    · have hsplit := accLen_split_bot pts (by omega : i < b)
      by_cases hseg : 0 < segLen pts i
      · have hnotbr := hfirst i (le_refl i) (by omega) hseg
        have hacc0 : accLen pts i i = 0 := by
          unfold accLen
          simp
        rw [hacc0] at hnotbr
        rw [if_pos hseg, if_neg (by
          rintro ⟨h1, h2⟩
          exact hnotbr ⟨by linarith, by linarith⟩)]
        have := ih (i + 1) (acc + segLen pts i) (by omega) b (by omega) hb
          hbpos
          (by rw [hsplit] at hlo; linarith)
          (by rw [hsplit] at hhi; linarith)
          (fun j hj1 hj2 hj3 => by
            have := hfirst j (by omega) hj2 hj3
            rw [accLen_split_bot pts (by omega : i < j)] at this
            intro hcon
            exact this ⟨by linarith [hcon.1], by linarith [hcon.2]⟩)
        rw [this, hsplit]
        ring_nf
      · have hz : segLen pts i = 0 :=
          le_antisymm (not_lt.mp hseg) (segLen_nonneg pts i)
        rw [if_neg hseg]
        have := ih (i + 1) acc (by omega) b (by omega) hb hbpos
          (by rw [hsplit, hz] at hlo; linarith)
          (by rw [hsplit, hz] at hhi; linarith)
          (fun j hj1 hj2 hj3 => by
            have := hfirst j (by omega) hj2 hj3
            rw [accLen_split_bot pts (by omega : i < j), hz] at this
            intro hcon
            exact this ⟨by linarith [hcon.1], by linarith [hcon.2]⟩)
        rw [this, hsplit, hz]
        ring_nf

/-! ## OGRSimpleCurve::segmentize (ogrlinestring.cpp:2632-2806)

Points carry all four planes (x, y, z, m); the first pass and the
canonicalization guard read only x and y, while the second pass
copies z and m of the inserted vertices from the segment's start
vertex (ogrlinestring.cpp:2774-2783).  Curves without a Z or M plane
are the configurations in which that component is never observed.
C++ doubles are idealised as reals; the `int` counters as integers
with the source's explicit guards. -/

/-- An XYZM vertex: `paoPoints[i]` together with `padfZ[i]` and
`padfM[i]`. -/
abbrev SegPt : Type := ℝ × ℝ × ℝ × ℝ

/-- The x/y planes of a vertex, the only ones the first pass and the
canonicalization guard read. -/
def xy (v : SegPt) : ℝ × ℝ := (v.1, v.2.1)

/-- `kMax = 2 << 26` (ogrlinestring.cpp:2684), the allocation guard
on point counts. -/
def kMaxSeg : ℤ := 134217728

/-- The subdivision trigger `dfSquareDist - dfSquareMaxLength >
REL_EPSILON_LENGTH_SQUARE * dfSquareMaxLength` with
`REL_EPSILON_LENGTH_SQUARE = 1e-5` (ogrlinestring.cpp:2672-2673). -/
def subdivides (L2 d2 : ℝ) : Prop := d2 - L2 > 1e-5 * L2

/-- `dfX*dfX + dfY*dfY` for a segment from `p` to `q`
(ogrlinestring.cpp:2669-2671), on the x/y planes. -/
def squareDist (p q : ℝ × ℝ) : ℝ :=
  (q.1 - p.1) * (q.1 - p.1) + (q.2 - p.2) * (q.2 - p.2)

section SegmentizeBranching

open scoped Classical

/-- `DoubleToIntClamp` (ogrlinestring.cpp:29-38): clamp a double to
the `int` range, truncating toward zero like `static_cast<int>`
(the `isnan` branch has no counterpart for an idealised real). -/
noncomputable def doubleToIntClamp (x : ℝ) : ℤ :=
  if x ≥ 2147483647 then 2147483647
  else if x ≤ -2147483648 then -2147483648
  else if 0 ≤ x then ⌊x⌋ else ⌈x⌉

/-- `DoubleToIntClamp(floor(sqrt(dfSquareDist / dfSquareMaxLength) -
REL_EPSILON_ROUND))` with `REL_EPSILON_ROUND = 1e-2`
(ogrlinestring.cpp:2675-2678). -/
noncomputable def nInterSeg (L2 : ℝ) (p q : ℝ × ℝ) : ℤ :=
  doubleToIntClamp ((⌊Real.sqrt (squareDist p q / L2) - 1e-2⌋ : ℤ) : ℝ)

/-- The first pass of `segmentize` (ogrlinestring.cpp:2655-2695):
count the output points, failing on the `kMax` allocation guard at
each subdividing segment.  Only x and y are read. -/
noncomputable def countPass (L2 : ℝ) : List SegPt → ℤ → Option ℤ
  | [], acc => some acc
  | [_], acc => some (acc + 1)
  | p :: q :: rest, acc =>
    if subdivides L2 (squareDist (xy p) (xy q)) then
      (if acc + 1 > kMaxSeg ∨ nInterSeg L2 (xy p) (xy q) > kMaxSeg then none
       else countPass L2 (q :: rest) (acc + 1 + nInterSeg L2 (xy p) (xy q)))
    else countPass L2 (q :: rest) (acc + 1)

/-- The evenly spaced intermediate vertices inserted into one
subdividing segment (ogrlinestring.cpp:2756-2784): `j * dfRatio`
offsets from the segment start on x and y, `dfRatio = delta /
(n + 1)`; z and m are copied uninterpolated from the segment's start
vertex (`padfNewZ[newI] = padfZ[i]`, ogrlinestring.cpp:2774-2783). -/
noncomputable def intermediatePoints (L2 : ℝ) (p q : SegPt) :
    List SegPt :=
  if subdivides L2 (squareDist (xy p) (xy q)) then
    (List.range (nInterSeg L2 (xy p) (xy q)).toNat).map fun (j : ℕ) =>
      (p.1 + ((j : ℝ) + 1) *
        ((q.1 - p.1) / (((nInterSeg L2 (xy p) (xy q)).toNat : ℝ) + 1)),
       p.2.1 + ((j : ℝ) + 1) *
        ((q.2.1 - p.2.1) / (((nInterSeg L2 (xy p) (xy q)).toNat : ℝ) + 1)),
       p.2.2.1, p.2.2.2)
  else []

/-- The second pass (ogrlinestring.cpp:2729-2788): each vertex (all
planes) followed by its segment's intermediate points. -/
noncomputable def fillPass (L2 : ℝ) : List SegPt → List SegPt
  | [] => []
  | [p] => [p]
  | p :: q :: rest => (p :: intermediatePoints L2 p q) ++ fillPass L2 (q :: rest)

/-- The canonical-orientation body of `segmentize`: first pass (with
its failure), the `nPointCount == nNewPointCount` early-out, then the
second pass. -/
noncomputable def segmentizeCanon (L : ℝ) (pts : List SegPt) :
    Option (List SegPt) :=
  match countPass (L * L) pts 0 with
  | none => none
  | some n =>
    if (pts.length : ℤ) = n then some pts else some (fillPass (L * L) pts)

/-- `paoPoints[i].x` of the modelled curve. -/
def px4 (pts : List SegPt) (i : ℕ) : ℝ := (pts.getD i (0, 0, 0, 0)).1

/-- `paoPoints[i].y` of the modelled curve. -/
def py4 (pts : List SegPt) (i : ℕ) : ℝ := (pts.getD i (0, 0, 0, 0)).2.1

/-- `padfZ[i]` of the modelled curve. -/
def pz4 (pts : List SegPt) (i : ℕ) : ℝ := (pts.getD i (0, 0, 0, 0)).2.2.1

/-- The canonicalization guard (ogrlinestring.cpp:2645-2647):
`paoPoints[0].x < paoPoints[n-1].x || (equal x && paoPoints[0].y <
paoPoints[n-1].y)` — the first vertex sorts strictly before the last
by (x, then y); z and m are not consulted. -/
def segmentizeReversesInput (pts : List SegPt) : Prop :=
  px4 pts 0 < px4 pts (pts.length - 1) ∨
    (px4 pts 0 = px4 pts (pts.length - 1) ∧
      py4 pts 0 < py4 pts (pts.length - 1))

/-- `OGRSimpleCurve::segmentize(dfMaxLength)`
(ogrlinestring.cpp:2632-2806): reject a non-positive max length,
leave short curves unchanged, canonicalize the orientation (reversing
when the guard holds — `reversePoints` swaps every plane,
ogrlinestring.cpp:1494-1510 — and reversing the result back), then
run the two passes. -/
noncomputable def segmentize (L : ℝ) (pts : List SegPt) :
    Option (List SegPt) :=
  if L ≤ 0 then none
  else if pts.length < 2 then some pts
  else if segmentizeReversesInput pts then
    (segmentizeCanon L pts.reverse).map List.reverse
  else segmentizeCanon L pts

/-- Sum over adjacent segments of the intermediate-point count of the
subdividing ones: the surplus of the first pass's output count over
the input count. -/
noncomputable def segInterSum (L2 : ℝ) : List SegPt → ℤ
  | [] => 0
  | [_] => 0
  | p :: q :: rest =>
    (if subdivides L2 (squareDist (xy p) (xy q)) then
      nInterSeg L2 (xy p) (xy q) else 0) +
      segInterSum L2 (q :: rest)

end SegmentizeBranching

section SegmentizeLemmas

open scoped Classical

lemma squareDist_comm (p q : ℝ × ℝ) : squareDist p q = squareDist q p := by
  unfold squareDist; ring

lemma nInterSeg_comm (L2 : ℝ) (p q : ℝ × ℝ) :
    nInterSeg L2 p q = nInterSeg L2 q p := by
  unfold nInterSeg; rw [squareDist_comm]

lemma doubleToIntClamp_intCast (z : ℤ) :
    doubleToIntClamp (z : ℝ) = max (-2147483648) (min 2147483647 z) := by
  unfold doubleToIntClamp
  by_cases h1 : (z : ℝ) ≥ 2147483647
  · rw [if_pos h1]
    have hz : (2147483647 : ℤ) ≤ z := by exact_mod_cast h1
    omega
  · rw [if_neg h1]
    have hz1 : z < 2147483647 := by exact_mod_cast not_le.mp h1
    by_cases h2 : (z : ℝ) ≤ -2147483648
    · rw [if_pos h2]
      have hz2 : z ≤ -2147483648 := by exact_mod_cast h2
      omega
    · rw [if_neg h2]
      have hz2 : (-2147483648 : ℤ) < z := by exact_mod_cast not_le.mp h2
      by_cases h3 : (0 : ℝ) ≤ (z : ℝ)
      · rw [if_pos h3, Int.floor_intCast]
        have hz3 : (0 : ℤ) ≤ z := by exact_mod_cast h3
        omega
      · rw [if_neg h3, Int.ceil_intCast]
        have hz3 : z < 0 := by exact_mod_cast not_le.mp h3
        omega

lemma nInterSeg_eq_clamp (L2 : ℝ) (p q : ℝ × ℝ) :
    nInterSeg L2 p q = max (-2147483648)
      (min 2147483647 ⌊Real.sqrt (squareDist p q / L2) - 1e-2⌋) := by
  unfold nInterSeg
  exact doubleToIntClamp_intCast _

lemma countPass_value (L2 : ℝ) :
    ∀ (l : List SegPt) (acc n : ℤ), countPass L2 l acc = some n →
      n = acc + l.length + segInterSum L2 l := by
  intro l
  induction l with
  | nil => intro acc n h; simp [countPass] at h; simp [segInterSum, ← h]
  | cons p t ih =>
    intro acc n h
    match t with
    | [] => simp [countPass] at h; simp [segInterSum, ← h]
    | q :: rest =>
      rw [countPass] at h
      by_cases hs : subdivides L2 (squareDist (xy p) (xy q))
      · rw [if_pos hs] at h
        by_cases hk : acc + 1 > kMaxSeg ∨ nInterSeg L2 (xy p) (xy q) > kMaxSeg
        · rw [if_pos hk] at h; exact absurd h (by simp)
        · rw [if_neg hk] at h
          have := ih (acc + 1 + nInterSeg L2 (xy p) (xy q)) n h
          rw [this, segInterSum, if_pos hs]
          simp [List.length_cons]
          ring
      · rw [if_neg hs] at h
        have := ih (acc + 1) n h
        rw [this, segInterSum, if_neg hs]
        simp [List.length_cons]
        ring

lemma segInterSum_concat (L2 : ℝ) :
    ∀ (t : List SegPt) (p x : SegPt),
      segInterSum L2 ((p :: t) ++ [x]) =
        segInterSum L2 (p :: t) +
          (if subdivides L2
              (squareDist (xy ((p :: t).getLastD (0, 0, 0, 0))) (xy x)) then
            nInterSeg L2 (xy ((p :: t).getLastD (0, 0, 0, 0))) (xy x)
          else 0) := by
  intro t
  induction t with
  | nil =>
    intro p x
    have hlast : ([p] : List SegPt).getLastD (0, 0, 0, 0) = p := by simp
    simp only [List.cons_append, List.nil_append, hlast]
    rw [segInterSum, segInterSum, segInterSum]
    ring
  | cons q t' ih =>
    intro p x
    have h1 : ((p :: q :: t') ++ [x]) = p :: ((q :: t') ++ [x]) := by simp
    rw [h1]
    have h2 : (q :: t') ++ [x] = q :: (t' ++ [x]) := by simp
    rw [h2, segInterSum, ← h2, ih q x, segInterSum]
    have h3 : (p :: q :: t').getLastD (0, 0, 0, 0) =
        (q :: t').getLastD (0, 0, 0, 0) := by
      simp [List.getLastD_cons]
    rw [h3]
    ring

lemma segInterSum_reverse (L2 : ℝ) :
    ∀ (l : List SegPt), segInterSum L2 l.reverse = segInterSum L2 l := by
  intro l
  induction l with
  | nil => rfl
  | cons p t ih =>
    match t with
    | [] => rfl
    | q :: t' =>
      rw [List.reverse_cons]
      obtain ⟨y, ys, hy⟩ := List.exists_cons_of_ne_nil
        (l := (q :: t').reverse) (by simp)
      rw [hy, segInterSum_concat, ← hy, ih]
      have hlast : ((q :: t').reverse).getLastD (0, 0, 0, 0) = q := by
        rw [List.getLastD_eq_getLast?, List.getLast?_reverse]
        simp
      rw [hlast, segInterSum]
      rw [squareDist_comm (xy q) (xy p), nInterSeg_comm L2 (xy q) (xy p)]
      ring

/-- Adjacent x/y pairs whose intermediate count passed the first
pass's `kMax` guard. -/
def boundedPair (L2 : ℝ) (p q : ℝ × ℝ) : Prop :=
  subdivides L2 (squareDist p q) → nInterSeg L2 p q ≤ kMaxSeg

/-- Adjacent x/y pairs that a further pass would no longer split. -/
def shortPair (L2 : ℝ) (p q : ℝ × ℝ) : Prop :=
  subdivides L2 (squareDist p q) → nInterSeg L2 p q ≤ 0

lemma countPass_chain (L2 : ℝ) :
    ∀ (l : List SegPt) (acc n : ℤ), countPass L2 l acc = some n →
      (l.map xy).Chain' (boundedPair L2) := by
  intro l
  induction l with
  | nil => intro acc n _; simp
  | cons p t ih =>
    intro acc n h
    match t with
    | [] => simp
    | q :: rest =>
      rw [countPass] at h
      simp only [List.map_cons, List.chain'_cons]
      by_cases hs : subdivides L2 (squareDist (xy p) (xy q))
      · rw [if_pos hs] at h
        by_cases hk : acc + 1 > kMaxSeg ∨ nInterSeg L2 (xy p) (xy q) > kMaxSeg
        · rw [if_pos hk] at h; exact absurd h (by simp)
        · rw [if_neg hk] at h
          push_neg at hk
          have hih := ih _ n h
          simp only [List.map_cons] at hih
          exact ⟨fun _ => hk.2, hih⟩
      · rw [if_neg hs] at h
        have hih := ih _ n h
        simp only [List.map_cons] at hih
        exact ⟨fun hc => absurd hc hs, hih⟩

lemma fillPass_concat (L2 : ℝ) :
    ∀ (t : List SegPt) (p x : SegPt),
      fillPass L2 ((p :: t) ++ [x]) =
        fillPass L2 (p :: t) ++
          (intermediatePoints L2 ((p :: t).getLastD (0, 0, 0, 0)) x ++ [x]) := by
  intro t
  induction t with
  | nil =>
    intro p x
    have hlast : ([p] : List SegPt).getLastD (0, 0, 0, 0) = p := by simp
    simp only [List.cons_append, List.nil_append, hlast]
    rw [fillPass, fillPass, fillPass]
    simp
  | cons q t' ih =>
    intro p x
    have h1 : ((p :: q :: t') ++ [x]) = p :: ((q :: t') ++ [x]) := by simp
    rw [h1]
    have h2 : (q :: t') ++ [x] = q :: (t' ++ [x]) := by simp
    rw [h2, fillPass, ← h2, ih q x, fillPass]
    have h3 : (p :: q :: t').getLastD (0, 0, 0, 0) =
        (q :: t').getLastD (0, 0, 0, 0) := by
      simp [List.getLastD_cons]
    rw [h3]
    simp

lemma intermediatePoints_reverse_xy (L2 : ℝ) (p q : SegPt) :
    (intermediatePoints L2 q p).map xy =
      ((intermediatePoints L2 p q).map xy).reverse := by
  have hsc : subdivides L2 (squareDist (xy q) (xy p)) ↔
      subdivides L2 (squareDist (xy p) (xy q)) := by rw [squareDist_comm]
  by_cases hs : subdivides L2 (squareDist (xy p) (xy q))
  · unfold intermediatePoints
    rw [if_pos (hsc.mpr hs), if_pos hs, nInterSeg_comm L2 (xy q) (xy p)]
    rw [List.map_map, List.map_map]
    apply List.ext_getElem
    · simp
    · intro i h1 h2
      simp only [List.length_map, List.length_range] at h1
      rw [List.getElem_reverse]
      simp only [List.getElem_map, List.getElem_range, List.length_map,
        List.length_range, Function.comp_apply]
      obtain ⟨k, hk⟩ : ∃ k, (nInterSeg L2 (xy p) (xy q)).toNat = i + 1 + k :=
        ⟨(nInterSeg L2 (xy p) (xy q)).toNat - (i + 1), by omega⟩
      rw [hk]
      have h5 : i + 1 + k - 1 - i = k := by omega
      rw [h5]
      rw [Prod.ext_iff]
      constructor
      · simp only [xy]
        push_cast
        field_simp
        ring
      · simp only [xy]
        push_cast
        field_simp
        ring
  · unfold intermediatePoints
    rw [if_neg (fun hc => hs (hsc.mp hc)), if_neg hs]
    rfl

lemma fillPass_head (L2 : ℝ) (p : SegPt) (t : List SegPt) :
    (fillPass L2 (p :: t)).head? = some p := by
  match t with
  | [] => simp [fillPass]
  | q :: rest => rw [fillPass]; simp

lemma fillPass_reverse_xy (L2 : ℝ) :
    ∀ (l : List SegPt),
      (fillPass L2 l.reverse).map xy = ((fillPass L2 l).map xy).reverse := by
  intro l
  induction l with
  | nil => rfl
  | cons p t ih =>
    match t with
    | [] => simp [fillPass]
    | q :: t' =>
      rw [List.reverse_cons]
      obtain ⟨y, ys, hy⟩ := List.exists_cons_of_ne_nil
        (l := (q :: t').reverse) (by simp)
      rw [hy, fillPass_concat, ← hy]
      have hlast : ((q :: t').reverse).getLastD (0, 0, 0, 0) = q := by
        rw [List.getLastD_eq_getLast?, List.getLast?_reverse]; simp
      rw [hlast]
      simp only [List.map_append]
      rw [ih, intermediatePoints_reverse_xy]
      rw [fillPass]
      simp [List.reverse_append, List.append_assoc]

lemma squareDist_nonneg (p q : ℝ × ℝ) : 0 ≤ squareDist p q := by
  unfold squareDist
  nlinarith [sq_nonneg (q.1 - p.1), sq_nonneg (q.2 - p.2)]

lemma sqrt_ratio_ge_one {L2 d2 : ℝ} (hL2 : 0 < L2) (h : subdivides L2 d2) :
    1 ≤ Real.sqrt (d2 / L2) := by
  have h1 : (1 : ℝ) ≤ d2 / L2 := by
    rw [le_div_iff₀ hL2]
    unfold subdivides at h
    nlinarith
  calc (1 : ℝ) = Real.sqrt 1 := Real.sqrt_one.symm
    _ ≤ Real.sqrt (d2 / L2) := Real.sqrt_le_sqrt h1

lemma nInterSeg_floor_nonneg {L2 : ℝ} (hL2 : 0 < L2) (p q : ℝ × ℝ)
    (h : subdivides L2 (squareDist p q)) :
    0 ≤ ⌊Real.sqrt (squareDist p q / L2) - 1e-2⌋ := by
  have h1 := sqrt_ratio_ge_one hL2 h
  refine Int.le_floor.mpr ?_
  push_cast
  norm_num
  linarith

lemma nInterSeg_nonneg {L2 : ℝ} (hL2 : 0 < L2) (p q : ℝ × ℝ)
    (h : subdivides L2 (squareDist p q)) : 0 ≤ nInterSeg L2 p q := by
  have h1 := nInterSeg_floor_nonneg hL2 p q h
  rw [nInterSeg_eq_clamp]
  omega

lemma nInterSeg_eq_floor {L2 : ℝ} (hL2 : 0 < L2) (p q : ℝ × ℝ)
    (hsub : subdivides L2 (squareDist p q)) (hb : nInterSeg L2 p q ≤ kMaxSeg) :
    nInterSeg L2 p q = ⌊Real.sqrt (squareDist p q / L2) - 1e-2⌋ := by
  have h0 := nInterSeg_floor_nonneg hL2 p q hsub
  rw [nInterSeg_eq_clamp] at hb ⊢
  unfold kMaxSeg at hb
  omega

lemma piece_nInter_le {L2 : ℝ} (hL2 : 0 < L2) (p q P Q : ℝ × ℝ)
    (hsub : subdivides L2 (squareDist p q))
    (hb : nInterSeg L2 p q ≤ kMaxSeg)
    (hd : squareDist P Q =
      squareDist p q / (((nInterSeg L2 p q).toNat : ℝ) + 1) ^ 2) :
    nInterSeg L2 P Q ≤ 0 := by
  set n : ℕ := (nInterSeg L2 p q).toNat with hn
  set r : ℝ := Real.sqrt (squareDist p q / L2) with hr
  have hN1 : (0 : ℝ) < (n : ℝ) + 1 := by positivity
  have hfl : nInterSeg L2 p q = ⌊r - 1e-2⌋ := nInterSeg_eq_floor hL2 p q hsub hb
  have hnz : (n : ℤ) = nInterSeg L2 p q := by
    rw [hn]; exact Int.toNat_of_nonneg (nInterSeg_nonneg hL2 p q hsub)
  have hup : r < (n : ℝ) + 1 + 1e-2 := by
    have h1 : r - 1e-2 < (⌊r - 1e-2⌋ : ℝ) + 1 := Int.lt_floor_add_one _
    rw [← hfl, ← hnz] at h1
    push_cast at h1
    linarith
  have hsq : Real.sqrt (squareDist P Q / L2) = r / ((n : ℝ) + 1) := by
    rw [hd]
    have h2 : squareDist p q / ((n : ℝ) + 1) ^ 2 / L2 =
        squareDist p q / L2 / ((n : ℝ) + 1) ^ 2 := by ring
    rw [h2, Real.sqrt_div
        (div_nonneg (squareDist_nonneg p q) (le_of_lt hL2)),
      Real.sqrt_sq (le_of_lt hN1)]
  have hlt : Real.sqrt (squareDist P Q / L2) - 1e-2 < 1 := by
    rw [hsq]
    have h3 : r / ((n : ℝ) + 1) < 1 + 1e-2 := by
      rw [div_lt_iff₀ hN1]
      have hge : (0 : ℝ) ≤ (n : ℝ) := Nat.cast_nonneg n
      nlinarith
    linarith
  have hfloor : ⌊Real.sqrt (squareDist P Q / L2) - 1e-2⌋ ≤ 0 := by
    have h4 : ⌊Real.sqrt (squareDist P Q / L2) - 1e-2⌋ < 1 :=
      Int.floor_lt.mpr (by push_cast; linarith)
    omega
  rw [nInterSeg_eq_clamp]
  omega

lemma fillPass_length (L2 : ℝ) :
    ∀ (l : List SegPt), l.length ≤ (fillPass L2 l).length := by
  intro l
  induction l with
  | nil => simp [fillPass]
  | cons p t ih =>
    match t with
    | [] => simp [fillPass]
    | q :: t' =>
      rw [fillPass]
      simp only [List.length_append, List.length_cons]
      have := ih
      simp only [List.length_cons] at this ⊢
      omega

lemma seg_pieces_eq (L2 : ℝ) (p q : SegPt)
    (hsub : subdivides L2 (squareDist (xy p) (xy q))) :
    ((p :: intermediatePoints L2 p q) ++ [q]).map xy =
      (List.range ((nInterSeg L2 (xy p) (xy q)).toNat + 2)).map fun (j : ℕ) =>
        (p.1 + (j : ℝ) *
          ((q.1 - p.1) / (((nInterSeg L2 (xy p) (xy q)).toNat : ℝ) + 1)),
         p.2.1 + (j : ℝ) *
          ((q.2.1 - p.2.1) / (((nInterSeg L2 (xy p) (xy q)).toNat : ℝ) + 1))) := by
  set n : ℕ := (nInterSeg L2 (xy p) (xy q)).toNat with hn
  set f : ℕ → ℝ × ℝ := fun (j : ℕ) =>
    (p.1 + (j : ℝ) * ((q.1 - p.1) / ((n : ℝ) + 1)),
     p.2.1 + (j : ℝ) * ((q.2.1 - p.2.1) / ((n : ℝ) + 1))) with hf
  have hN1 : (0 : ℝ) < (n : ℝ) + 1 := by positivity
  have h1 : List.range (n + 2) = List.range (n + 1) ++ [n + 1] :=
    List.range_succ (n + 1)
  have h2 : List.range (n + 1) = 0 :: (List.range n).map Nat.succ :=
    List.range_succ_eq_map n
  have hp : f 0 = xy p := by
    rw [hf]; simp [xy]
  have hq : f (n + 1) = xy q := by
    apply Prod.ext_iff.mpr
    constructor
    · simp only [hf, xy]; push_cast; field_simp
    · simp only [hf, xy]; push_cast; field_simp
  have hinter : (intermediatePoints L2 p q).map xy =
      (List.range n).map (f ∘ Nat.succ) := by
    unfold intermediatePoints
    rw [if_pos hsub]
    rw [← hn]
    rw [List.map_map]
    apply List.map_congr_left
    intro j _
    simp only [hf, Function.comp_apply, xy]
    rw [Prod.ext_iff]
    constructor
    · push_cast; ring
    · push_cast; ring
  have hlhs : ((p :: intermediatePoints L2 p q) ++ [q]).map xy =
      (xy p :: (intermediatePoints L2 p q).map xy) ++ [xy q] := by simp
  rw [hlhs, hinter, ← hp]
  rw [h1, h2, List.map_append, List.map_cons, List.map_map]
  simp only [List.map_cons, List.map_nil]
  rw [hq]

lemma seg_chain (L2 : ℝ) (hL2 : 0 < L2) (p q : SegPt)
    (hb : boundedPair L2 (xy p) (xy q)) :
    (((p :: intermediatePoints L2 p q) ++ [q]).map xy).Chain'
      (shortPair L2) := by
  by_cases hsub : subdivides L2 (squareDist (xy p) (xy q))
  · rw [seg_pieces_eq L2 p q hsub]
    rw [List.chain'_map]
    have h2 : (nInterSeg L2 (xy p) (xy q)).toNat + 2 =
        ((nInterSeg L2 (xy p) (xy q)).toNat + 1) + 1 := rfl
    rw [h2, List.chain'_range_succ]
    intro m hm
    intro _
    refine piece_nInter_le hL2 (xy p) (xy q) _ _ hsub (hb hsub) ?_
    unfold squareDist
    simp only [xy, Prod.mk.injEq]
    push_cast
    field_simp
    ring
  · have hempty : intermediatePoints L2 p q = [] := by
      unfold intermediatePoints; rw [if_neg hsub]
    rw [hempty]
    simp only [List.nil_append, List.cons_append, List.map_cons, List.map_nil]
    rw [List.chain'_cons]
    exact ⟨fun hc => absurd hc hsub, List.chain'_singleton (xy q)⟩

lemma fillPass_chain (L2 : ℝ) (hL2 : 0 < L2) :
    ∀ (l : List SegPt), (l.map xy).Chain' (boundedPair L2) →
      ((fillPass L2 l).map xy).Chain' (shortPair L2) := by
  intro l
  induction l with
  | nil => intro _; rw [fillPass]; simp
  | cons p t ih =>
    intro hc
    match t with
    | [] => rw [fillPass]; simp
    | q :: rest =>
      simp only [List.map_cons, List.chain'_cons] at hc
      obtain ⟨hpq, htail⟩ := hc
      have hseg := seg_chain L2 hL2 p q hpq
      have hsegeq : ((p :: intermediatePoints L2 p q) ++ [q]).map xy =
          (p :: intermediatePoints L2 p q).map xy ++ [xy q] := by simp
      rw [hsegeq, List.chain'_append] at hseg
      obtain ⟨hs1, _, hs3⟩ := hseg
      rw [fillPass, List.map_append, List.chain'_append]
      refine ⟨hs1, ih (by simpa using htail), ?_⟩
      intro x hx y hy
      rw [List.head?_map, fillPass_head] at hy
      have hy2 : y = xy q := by simpa using hy.symm
      subst hy2
      exact hs3 x hx (xy q) (by simp)

lemma segInterSum_of_short (L2 : ℝ) (hL2 : 0 < L2) :
    ∀ (l : List SegPt), (l.map xy).Chain' (shortPair L2) →
      segInterSum L2 l = 0 := by
  intro l
  induction l with
  | nil => intro _; rfl
  | cons p t ih =>
    intro hc
    match t with
    | [] => rfl
    | q :: rest =>
      simp only [List.map_cons, List.chain'_cons] at hc
      obtain ⟨hpq, htail⟩ := hc
      rw [segInterSum]
      by_cases hsub : subdivides L2 (squareDist (xy p) (xy q))
      · have h1 : nInterSeg L2 (xy p) (xy q) = 0 :=
          le_antisymm (hpq hsub) (nInterSeg_nonneg hL2 (xy p) (xy q) hsub)
        rw [if_pos hsub, h1, ih (by simpa using htail)]
        simp
      · rw [if_neg hsub, ih (by simpa using htail)]
        simp

lemma segmentizeCanon_rev_xy (L : ℝ) (pts out outR : List SegPt)
    (hc : segmentizeCanon L pts = some out)
    (hcr : segmentizeCanon L pts.reverse = some outR) :
    outR.map xy = (out.map xy).reverse := by
  unfold segmentizeCanon at hc hcr
  cases hcp : countPass (L * L) pts 0 with
  | none => rw [hcp] at hc; exact absurd hc (by simp)
  | some n =>
    cases hcpr : countPass (L * L) pts.reverse 0 with
    | none => rw [hcpr] at hcr; exact absurd hcr (by simp)
    | some nR =>
      rw [hcp] at hc
      rw [hcpr] at hcr
      simp only [] at hc hcr
      have hv := countPass_value (L * L) pts 0 n hcp
      have hvr := countPass_value (L * L) pts.reverse 0 nR hcpr
      rw [segInterSum_reverse, List.length_reverse] at hvr
      have hnr : nR = n := by rw [hv, hvr]
      by_cases hlen : (pts.length : ℤ) = n
      · rw [if_pos hlen] at hc
        rw [if_pos (by rw [List.length_reverse, hnr]; exact hlen)] at hcr
        have h1 : out = pts := by simpa using hc.symm
        have h2 : outR = pts.reverse := by simpa using hcr.symm
        rw [h1, h2, List.map_reverse]
      · rw [if_neg hlen] at hc
        rw [if_neg (by rw [List.length_reverse, hnr]; exact hlen)] at hcr
        have h1 : out = fillPass (L * L) pts := by simpa using hc.symm
        have h2 : outR = fillPass (L * L) pts.reverse := by simpa using hcr.symm
        rw [h1, h2, fillPass_reverse_xy]

lemma segmentizeCanon_fixed (L : ℝ) (v out : List SegPt)
    (hz : segInterSum (L * L) v = 0)
    (h : segmentizeCanon L v = some out) : out = v := by
  unfold segmentizeCanon at h
  cases hcp : countPass (L * L) v 0 with
  | none => rw [hcp] at h; exact absurd h (by simp)
  | some n =>
    rw [hcp] at h
    simp only [] at h
    have hv := countPass_value (L * L) v 0 n hcp
    rw [hz] at hv
    have hlen : (v.length : ℤ) = n := by omega
    rw [if_pos hlen] at h
    simpa using h.symm

lemma segmentizeCanon_sum_zero (L : ℝ) (hL : 0 < L) (v r : List SegPt)
    (h : segmentizeCanon L v = some r) : segInterSum (L * L) r = 0 := by
  have hL2 : 0 < L * L := mul_pos hL hL
  unfold segmentizeCanon at h
  cases hcp : countPass (L * L) v 0 with
  | none => rw [hcp] at h; exact absurd h (by simp)
  | some n =>
    rw [hcp] at h
    simp only [] at h
    by_cases hlen : (v.length : ℤ) = n
    · rw [if_pos hlen] at h
      have hr : r = v := by simpa using h.symm
      subst hr
      have hv := countPass_value (L * L) r 0 n hcp
      omega
    · rw [if_neg hlen] at h
      have hr : r = fillPass (L * L) v := by simpa using h.symm
      subst hr
      exact segInterSum_of_short (L * L) hL2 _
        (fillPass_chain (L * L) hL2 v (countPass_chain (L * L) v 0 n hcp))

lemma px4_reverse_zero (pts : List SegPt) :
    px4 pts.reverse 0 = px4 pts (pts.length - 1) := by
  unfold px4
  rw [List.getD_eq_getElem?_getD, List.getD_eq_getElem?_getD]
  rw [← List.head?_eq_getElem?, List.head?_reverse, List.getLast?_eq_getElem?]

lemma py4_reverse_zero (pts : List SegPt) :
    py4 pts.reverse 0 = py4 pts (pts.length - 1) := by
  unfold py4
  rw [List.getD_eq_getElem?_getD, List.getD_eq_getElem?_getD]
  rw [← List.head?_eq_getElem?, List.head?_reverse, List.getLast?_eq_getElem?]

lemma px4_reverse_last (pts : List SegPt) :
    px4 pts.reverse (pts.length - 1) = px4 pts 0 := by
  unfold px4
  rw [List.getD_eq_getElem?_getD, List.getD_eq_getElem?_getD]
  have h1 : pts.length - 1 = pts.reverse.length - 1 := by
    rw [List.length_reverse]
  rw [h1, ← List.getLast?_eq_getElem?, List.getLast?_reverse,
    List.head?_eq_getElem?]

lemma py4_reverse_last (pts : List SegPt) :
    py4 pts.reverse (pts.length - 1) = py4 pts 0 := by
  unfold py4
  rw [List.getD_eq_getElem?_getD, List.getD_eq_getElem?_getD]
  have h1 : pts.length - 1 = pts.reverse.length - 1 := by
    rw [List.length_reverse]
  rw [h1, ← List.getLast?_eq_getElem?, List.getLast?_reverse,
    List.head?_eq_getElem?]

lemma segmentizeReversesInput_reverse (pts : List SegPt) :
    segmentizeReversesInput pts.reverse ↔
      (px4 pts (pts.length - 1) < px4 pts 0 ∨
        (px4 pts (pts.length - 1) = px4 pts 0 ∧
          py4 pts (pts.length - 1) < py4 pts 0)) := by
  unfold segmentizeReversesInput
  rw [List.length_reverse, px4_reverse_zero, px4_reverse_last,
    py4_reverse_zero, py4_reverse_last]

lemma segmentize_rev_xy (L : ℝ) (pts out outR : List SegPt)
    (h : segmentize L pts = some out)
    (hr : segmentize L pts.reverse = some outR) :
    outR.map xy = (out.map xy).reverse := by
  unfold segmentize at h hr
  by_cases hL : L ≤ 0
  · rw [if_pos hL] at h; exact absurd h (by simp)
  rw [if_neg hL] at h hr
  by_cases hlen : pts.length < 2
  · rw [if_pos hlen] at h
    rw [if_pos (by rw [List.length_reverse]; exact hlen)] at hr
    have h1 : out = pts := by simpa using h.symm
    have h2 : outR = pts.reverse := by simpa using hr.symm
    rw [h1, h2, List.map_reverse]
  rw [if_neg hlen] at h
  rw [if_neg (by rw [List.length_reverse]; exact hlen)] at hr
  by_cases hG : segmentizeReversesInput pts
  · rw [if_pos hG] at h
    have hG' : ¬ segmentizeReversesInput pts.reverse := by
      intro hc
      rw [segmentizeReversesInput_reverse] at hc
      unfold segmentizeReversesInput at hG
      rcases hG with h1 | ⟨h1, h2⟩ <;> rcases hc with h3 | ⟨h3, h4⟩ <;> linarith
    rw [if_neg hG'] at hr
    rw [hr] at h
    have h1 : outR.reverse = out := by simpa using h
    rw [← h1, List.map_reverse, List.reverse_reverse]
  · rw [if_neg hG] at h
    by_cases hG' : segmentizeReversesInput pts.reverse
    · rw [if_pos hG'] at hr
      rw [List.reverse_reverse, h] at hr
      have h1 : out.reverse = outR := by simpa using hr
      rw [← h1, List.map_reverse]
    · rw [if_neg hG'] at hr
      exact segmentizeCanon_rev_xy L pts out outR h hr

lemma segmentize_idem (L : ℝ) (pts out out2 : List SegPt)
    (h1 : segmentize L pts = some out)
    (h2 : segmentize L out = some out2) : out2 = out := by
  by_cases hL : L ≤ 0
  · unfold segmentize at h1; rw [if_pos hL] at h1; exact absurd h1 (by simp)
  have hL0 : 0 < L := not_le.mp hL
  have hz : segInterSum (L * L) out = 0 := by
    unfold segmentize at h1
    rw [if_neg hL] at h1
    by_cases hlen : pts.length < 2
    · rw [if_pos hlen] at h1
      have ho : out = pts := by simpa using h1.symm
      rw [ho]
      match pts, hlen with
      | [], _ => rfl
      | [_], _ => rfl
    · rw [if_neg hlen] at h1
      by_cases hG : segmentizeReversesInput pts
      · rw [if_pos hG] at h1
        cases hc : segmentizeCanon L pts.reverse with
        | none => rw [hc] at h1; exact absurd h1 (by simp)
        | some r =>
          rw [hc] at h1
          have ho : out = r.reverse := by simpa using h1.symm
          rw [ho, segInterSum_reverse]
          exact segmentizeCanon_sum_zero L hL0 pts.reverse r hc
      · rw [if_neg hG] at h1
        exact segmentizeCanon_sum_zero L hL0 pts out h1
  unfold segmentize at h2
  rw [if_neg hL] at h2
  by_cases hlen2 : out.length < 2
  · rw [if_pos hlen2] at h2; simpa using h2.symm
  rw [if_neg hlen2] at h2
  by_cases hG2 : segmentizeReversesInput out
  · rw [if_pos hG2] at h2
    cases hc : segmentizeCanon L out.reverse with
    | none => rw [hc] at h2; exact absurd h2 (by simp)
    | some r =>
      rw [hc] at h2
      have hzr : segInterSum (L * L) out.reverse = 0 := by
        rw [segInterSum_reverse]; exact hz
      have hrr : r = out.reverse := segmentizeCanon_fixed L out.reverse r hzr hc
      have ho2 : out2 = r.reverse := by simpa using h2.symm
      rw [ho2, hrr, List.reverse_reverse]
  · rw [if_neg hG2] at h2
    exact segmentizeCanon_fixed L out out2 hz h2

end SegmentizeLemmas

/-! ## Claim theorems: C1 -/

/-- C1 (amended): decoding a property stream under a schema of at most
65536 columns: a stream containing two tuples with the same column
index fails with `CorruptData`, provided the earlier occurrence
actually stored its field (its column is not flagged ignored, and for
a DateTime column the value parses) — an ignored or unparseable-
DateTime duplicate is skipped without error; and a tuple whose column
index is at least the declared column count always fails with
`CorruptData`. -/
theorem parseFeature_props_checks (cs : List FgbColumn)
    (dtOK : List ℕ → Bool) (hcs : cs.length ≤ 65536) :
    (∀ (pre mid post : List (ℕ × List ℕ)) (i : ℕ) (v v2 : List ℕ),
      (∀ iv ∈ pre ++ (i, v) :: mid ++ (i, v2) :: post,
        iv.1 < cs.length ∧
          wfTupleVal (cs.getD iv.1 ⟨.boolT, false⟩).type iv.2) →
      storedTuple (cs.getD i ⟨.boolT, false⟩) dtOK v →
      parseFeatureProps (some cs) dtOK
          (encodeProps cs (pre ++ (i, v) :: mid ++ (i, v2) :: post))
        = .error .corruptData) ∧
    (∀ (ts : List (ℕ × List ℕ)) (badIdx : ℕ) (tail : List ℕ),
      (∀ iv ∈ ts, iv.1 < cs.length ∧
        wfTupleVal (cs.getD iv.1 ⟨.boolT, false⟩).type iv.2) →
      cs.length ≤ badIdx → badIdx < 65536 → tail ≠ [] →
      parseFeatureProps (some cs) dtOK
          (encodeProps cs ts ++ u16le badIdx ++ tail)
        = .error .corruptData) := by
  constructor
  · intro pre mid post i v v2 hwf hstored
    have hrange : i < cs.length := (hwf (i, v) (by simp)).1
    have hwfv2 : wfTupleVal (cs.getD i ⟨.boolT, false⟩).type v2 :=
      (hwf (i, v2) (by simp)).2
    have hdist : encodeProps cs ((pre ++ (i, v) :: mid) ++ (i, v2) :: post)
        = encodeProps cs (pre ++ (i, v) :: mid) ++
          (encodeTuple (cs.getD i ⟨.boolT, false⟩).type i v2 ++
            encodeProps cs post) := by
      rw [encodeProps_append, encodeProps_cons]
    have hlen1 : 2 ≤ (encodeProps cs (pre ++ (i, v) :: mid)).length := by
      rw [encodeProps_append, encodeProps_cons]
      have := encodeTuple_length_ge_two (cs.getD i ⟨.boolT, false⟩).type i v
      simp only [List.length_append]
      omega
    have hlen2 := encodeTuple_length_ge_two
      (cs.getD i ⟨.boolT, false⟩).type i v2
    rw [parseFeatureProps, if_neg (by
      rw [hdist]
      simp only [List.length_append]
      omega)]
    rw [hdist]
    rcases parsePropStream_encodeProps cs dtOK hcs (pre ++ (i, v) :: mid) ∅
        (encodeTuple (cs.getD i ⟨.boolT, false⟩).type i v2 ++
          encodeProps cs post)
        (fun jv hjv => hwf jv (by
          simp only [List.mem_append, List.mem_cons] at hjv ⊢
          tauto)) with hc | hok
    · exact hc
    · obtain ⟨σ', -, hmem, heq⟩ := hok
      have hiσ : i ∈ σ' := hmem (i, v) (by simp) hstored
      rw [heq, parsePropStream_encodeTuple cs dtOK i v2 _ σ' (by omega)
        hrange hwfv2, if_pos hiσ]
  · intro ts badIdx tail hwf hbad hbad16 htail
    have hlen : 3 ≤ (encodeProps cs ts ++ u16le badIdx ++ tail).length := by
      have : 1 ≤ tail.length := by
        cases tail with
        | nil => exact absurd rfl htail
        | cons a t => simp
      simp only [List.length_append, u16le, List.length_cons,
        List.length_nil]
      omega
    rw [parseFeatureProps, if_neg (by omega), List.append_assoc]
    rcases parsePropStream_encodeProps cs dtOK hcs ts ∅
        (u16le badIdx ++ tail) hwf with hc | hok
    · exact hc
    · obtain ⟨σ', -, -, heq⟩ := hok
      rw [heq]
      rw [show u16le badIdx ++ tail
          = (badIdx % 256) :: (badIdx / 256 % 256) :: tail by simp [u16le]]
      rw [parsePropStream]
      simp only [u16le_decode badIdx hbad16]
      rw [if_pos hbad]

/-- C1 counterexample: under a one-column schema whose single Bool
column is flagged ignored by the caller, the stream carrying column
index 0 twice decodes without error (no field is ever stored, so the
field-already-set check never fires), refuting the unconditional
duplicate-implies-CorruptData claim. -/
theorem parseFeature_duplicate_counterexample :
    encodeProps [⟨FColumnType.boolT, true⟩] [(0, [1]), (0, [1])]
      = [0, 0, 1, 0, 0, 1] ∧
    parseFeatureProps (some [⟨FColumnType.boolT, true⟩]) (fun _ => true)
      [0, 0, 1, 0, 0, 1] = .ok ∅ ∧
    (Except.ok ∅ : Except PropParseErr (Finset ℕ))
      ≠ .error .corruptData := by
  refine ⟨rfl, ?_, by simp⟩
  rw [parseFeatureProps, if_neg (by norm_num)]
  rw [show ([0, 0, 1, 0, 0, 1] : List ℕ)
      = encodeTuple ((([⟨FColumnType.boolT, true⟩] : List FgbColumn).getD 0
          ⟨.boolT, false⟩).type) 0 [1] ++
        (encodeTuple ((([⟨FColumnType.boolT, true⟩] : List FgbColumn).getD 0
          ⟨.boolT, false⟩).type) 0 [1] ++ []) from rfl]
  rw [parsePropStream_encodeTuple [⟨FColumnType.boolT, true⟩] (fun _ => true)
    0 [1] _ ∅ (by norm_num) (by norm_num) rfl]
  rw [if_neg (by simp), if_neg (by simp [storedTuple])]
  rw [parsePropStream_encodeTuple [⟨FColumnType.boolT, true⟩] (fun _ => true)
    0 [1] _ ∅ (by norm_num) (by norm_num) rfl]
  rw [if_neg (by simp), if_neg (by simp [storedTuple])]
  rw [parsePropStream]

/-- C1 witness: a stored (non-ignored) duplicate is `CorruptData`, and
an out-of-range index under a one-column schema is `CorruptData`. -/
theorem parseFeature_props_checks_witness :
    parseFeatureProps (some [⟨FColumnType.boolT, false⟩]) (fun _ => true)
      (encodeProps [⟨FColumnType.boolT, false⟩] [(0, [1]), (0, [1])])
      = .error .corruptData ∧
    parseFeatureProps (some [⟨FColumnType.boolT, false⟩]) (fun _ => true)
      (encodeProps [⟨FColumnType.boolT, false⟩] [] ++ u16le 1 ++ [0])
      = .error .corruptData := by
  constructor
  · exact (parseFeature_props_checks [⟨FColumnType.boolT, false⟩]
      (fun _ => true) (by norm_num)).1 [] [] [] 0 [1] [1]
      (by
        intro iv hiv
        have : iv = (0, [1]) := by simpa using hiv
        subst this
        exact ⟨by norm_num, rfl⟩)
      (by simp [storedTuple])
  · exact (parseFeature_props_checks [⟨FColumnType.boolT, false⟩]
      (fun _ => true) (by norm_num)).2 [] 1 [0] (by simp) (by norm_num)
      (by norm_num) (by simp)

/-! ## Claim theorems: C6 -/

/-- C6 (amended): on a non-empty curve, `Value(d)` returns the first
vertex for `d < 0` and the last vertex for `d` beyond the total
length; at `d = 0` (resp. `d` = total length) the returned X and Y
equal the first (resp. last) vertex's, and the full first vertex is
returned at `d = 0` when the curve's first segment has positive
length; for an in-range `d` it linearly interpolates X and Y (and Z
when 3D) within the first bracketing positive-length segment with
ratio `(d - accumulated)/segLen` — zero-length segments are never
selected; `Value(1)` on the two-point line (0,0)-(2,0) is (1,0). -/
theorem curveValue_spec (is3D : Bool) (pts : List XYZ) (hne : pts ≠ []) :
    (∀ d : ℝ, d < 0 → curveValue is3D pts d = startPoint3 is3D pts) ∧
    ((curveValue is3D pts 0).1 = vx pts 0 ∧
     (curveValue is3D pts 0).2.1 = vy pts 0) ∧
    (0 < segLen pts 0 → 2 ≤ pts.length →
      curveValue is3D pts 0 = startPoint3 is3D pts) ∧
    (∀ d : ℝ, totalLen pts < d → curveValue is3D pts d = endPoint3 is3D pts) ∧
    ((curveValue is3D pts (totalLen pts)).1 = vx pts (pts.length - 1) ∧
     (curveValue is3D pts (totalLen pts)).2.1 = vy pts (pts.length - 1)) ∧
    (∀ d : ℝ, 0 ≤ d → ∀ b, b < pts.length - 1 → 0 < segLen pts b →
      accLen pts 0 b ≤ d → d ≤ accLen pts 0 b + segLen pts b →
      (∀ j, j < b → 0 < segLen pts j →
        ¬ (accLen pts 0 j ≤ d ∧ d ≤ accLen pts 0 j + segLen pts j)) →
      curveValue is3D pts d =
        (vx pts b * (1 - (d - accLen pts 0 b) / segLen pts b) +
           vx pts (b + 1) * ((d - accLen pts 0 b) / segLen pts b),
         vy pts b * (1 - (d - accLen pts 0 b) / segLen pts b) +
           vy pts (b + 1) * ((d - accLen pts 0 b) / segLen pts b),
         if is3D then
           vz pts b * (1 - (d - accLen pts 0 b) / segLen pts b) +
             vz pts (b + 1) * ((d - accLen pts 0 b) / segLen pts b)
         else 0)) ∧
    curveValue false [((0 : ℝ), (0 : ℝ), (0 : ℝ)), (2, 0, 0)] 1
      = (1, 0, 0) := by
  have hlen : 1 ≤ pts.length := by
    cases pts with
    | nil => exact absurd rfl hne
    | cons p rest => simp
  refine ⟨?_, ?_, ?_, ?_, ?_, ?_, ?_⟩
  · intro d hd
    rw [curveValue, if_pos hd]
  · rw [curveValue, if_neg (lt_irrefl 0)]
    exact valueLoop_at_zero is3D pts (pts.length - 1 - 0) 0 rfl (by omega)
  · intro hseg hlen2
    rw [curveValue, if_neg (lt_irrefl 0)]
    rw [valueLoop, dif_pos (by omega), if_pos hseg,
      if_pos ⟨le_refl 0, by linarith⟩]
    rw [show (0 : ℝ) - 0 = 0 by ring, zero_div]
    rw [startPoint3]
    refine Prod.ext ?_ (Prod.ext ?_ ?_)
    · show vx pts 0 * (1 - 0) + vx pts (0 + 1) * 0 = vx pts 0
      ring
    · show vy pts 0 * (1 - 0) + vy pts (0 + 1) * 0 = vy pts 0
      ring
    · show (if is3D then vz pts 0 * (1 - 0) + vz pts (0 + 1) * 0 else 0)
        = (if is3D then vz pts 0 else 0)
      cases is3D with
      | false => rfl
      | true =>
        simp only [if_true]
        ring
  · intro d hd
    have htot : 0 ≤ totalLen pts := accLen_nonneg pts 0 (pts.length - 1)
    rw [curveValue, if_neg (by linarith)]
    exact valueLoop_overshoot is3D pts d (pts.length - 1 - 0) 0 0 rfl
      (by rw [zero_add]; exact hd)
  · have htot : 0 ≤ totalLen pts := accLen_nonneg pts 0 (pts.length - 1)
    rw [curveValue, if_neg (by linarith)]
    exact valueLoop_at_total is3D pts (totalLen pts) (pts.length - 1 - 0) 0 0
      rfl (by omega) (by rw [zero_add]; rfl)
  · intro d hd b hb hbpos hlo hhi hfirst
    rw [curveValue, if_neg (by linarith)]
    have := valueLoop_bracket is3D pts d (pts.length - 1 - 0) 0 0 rfl b
      (Nat.zero_le b) hb hbpos (by rw [zero_add]; exact hlo)
      (by rw [zero_add]; exact hhi)
      (fun j _ hj2 hj3 => by
        rw [zero_add]
        exact hfirst j hj2 hj3)
    rw [this, zero_add]
  · have hseg2 : segLen [((0 : ℝ), (0 : ℝ), (0 : ℝ)), (2, 0, 0)] 0 = 2 := by
      rw [segLen]
      norm_num [vx, vy]
      rw [show (4 : ℝ) = 2 ^ 2 by norm_num, Real.sqrt_sq (by norm_num)]
    rw [curveValue, if_neg (by norm_num)]
    rw [valueLoop, dif_pos (by norm_num), if_pos (by rw [hseg2]; norm_num),
      if_pos ⟨by norm_num, by rw [hseg2]; norm_num⟩]
    rw [hseg2]
    norm_num [vx, vy]

/-- C6 counterexample: at `d = 0` on the 3D curve
(0,0,z=1)-(0,0,z=2) the degenerate first segment is skipped and the
end vertex is produced, so the returned Z is 2, not the first vertex's
1; at `d` = total length = 1 on (0,0,z=1)-(1,0,z=2)-(1,0,z=3) the
bracketing segment ends before the trailing duplicate vertex, so the
returned Z is 2, not the last vertex's 3.  This refutes "Value(d)
returns the first vertex when d ≤ 0, and the last vertex when d ≥ the
total length" as stated. -/
theorem curveValue_counterexample :
    curveValue true [((0 : ℝ), (0 : ℝ), (1 : ℝ)), (0, 0, 2)] 0 = (0, 0, 2) ∧
    startPoint3 true [((0 : ℝ), (0 : ℝ), (1 : ℝ)), (0, 0, 2)] = (0, 0, 1) ∧
    ((0, 0, (2 : ℝ)) : XYZ) ≠ (0, 0, (1 : ℝ)) ∧
    curveValue true [((0 : ℝ), (0 : ℝ), (1 : ℝ)), (1, 0, 2), (1, 0, 3)] 1
      = (1, 0, 2) ∧
    totalLen [((0 : ℝ), (0 : ℝ), (1 : ℝ)), (1, 0, 2), (1, 0, 3)] = 1 ∧
    endPoint3 true [((0 : ℝ), (0 : ℝ), (1 : ℝ)), (1, 0, 2), (1, 0, 3)]
      = (1, 0, 3) ∧
    ((1, 0, (2 : ℝ)) : XYZ) ≠ (1, 0, (3 : ℝ)) := by
  have hseg0 : segLen [((0 : ℝ), (0 : ℝ), (1 : ℝ)), (0, 0, 2)] 0 = 0 := by
    rw [segLen]
    norm_num [vx, vy]
  have hsegA : segLen [((0 : ℝ), (0 : ℝ), (1 : ℝ)), (1, 0, 2), (1, 0, 3)] 0
      = 1 := by
    rw [segLen]
    norm_num [vx, vy]
  have hsegB : segLen [((0 : ℝ), (0 : ℝ), (1 : ℝ)), (1, 0, 2), (1, 0, 3)] 1
      = 0 := by
    rw [segLen]
    norm_num [vx, vy]
  refine ⟨?_, by norm_num [startPoint3, vx, vy, vz], by norm_num, ?_, ?_,
    by norm_num [endPoint3, vx, vy, vz], by norm_num⟩
  · rw [curveValue, if_neg (by norm_num)]
    rw [valueLoop, dif_pos (by norm_num), if_neg (by rw [hseg0]; norm_num)]
    rw [valueLoop, dif_neg (by norm_num)]
    norm_num [endPoint3, vx, vy, vz]
  · rw [curveValue, if_neg (by norm_num)]
    rw [valueLoop, dif_pos (by norm_num), if_pos (by rw [hsegA]; norm_num),
      if_pos ⟨by norm_num, by rw [hsegA]; norm_num⟩]
    rw [hsegA]
    norm_num [vx, vy, vz]
  · rw [totalLen, accLen]
    rw [show ([((0 : ℝ), (0 : ℝ), (1 : ℝ)), (1, 0, 2), (1, 0, 3)]).length - 1
        = 2 by norm_num]
    rw [Finset.sum_Ico_eq_sum_range]
    simp only [Finset.sum_range_succ, Finset.sum_range_zero]
    rw [show (0 : ℕ) + 0 = 0 by ring, show (0 : ℕ) + 1 = 1 by ring]
    rw [hsegA, hsegB]
    ring

/-- C6 witness: the amended claim applied to the two-point line
(0,0)-(2,0): negative distance yields the start point and the
midpoint query yields (1,0). -/
theorem curveValue_spec_witness :
    curveValue false [((0 : ℝ), (0 : ℝ), (0 : ℝ)), (2, 0, 0)] (-1)
      = startPoint3 false [((0 : ℝ), (0 : ℝ), (0 : ℝ)), (2, 0, 0)] ∧
    curveValue false [((0 : ℝ), (0 : ℝ), (0 : ℝ)), (2, 0, 0)] 1
      = (1, 0, 0) :=
  ⟨(curveValue_spec false [((0 : ℝ), (0 : ℝ), (0 : ℝ)), (2, 0, 0)]
      (by simp)).1 (-1) (by norm_num),
   (curveValue_spec false [((0 : ℝ), (0 : ℝ), (0 : ℝ)), (2, 0, 0)]
      (by simp)).2.2.2.2.2.2⟩

/-! ## Claim theorems: C2, C8, C9 -/

/-- C2: for every curve and per-point success flags: with the
partial-reprojection override unset, the transform fails as a whole as
soon as any point fails; with the override set (true), failed points
are dropped and the survivors are compacted to the front preserving
relative order (the result is exactly the in-order sublist of
successful points); and if zero points succeed on a non-empty curve
the operation fails under every policy. -/
theorem transform_partial_reprojection_policy (outs : List (Pt3 × Bool)) :
    ((∃ pb ∈ outs, pb.2 = false) → curveTransform outs none = none) ∧
    (curveTransform outs (some true) =
      (if (outs.filter (·.2)).map (·.1) = [] ∧ outs ≠ []
       then none else some ((outs.filter (·.2)).map (·.1)))) ∧
    (outs ≠ [] → (∀ pb ∈ outs, pb.2 = false) →
      ∀ cfg, curveTransform outs cfg = none) := by
  refine ⟨?_, ?_, ?_⟩
  · rintro ⟨pb, hmem, hfail⟩
    have : outs.all (·.2) = false := by
      rw [List.all_eq_false]
      exact ⟨pb, hmem, by simp [hfail]⟩
    simp [curveTransform, transformLoop_none_eq, this]
  · by_cases h2 : outs = []
    · subst h2
      simp [curveTransform, transformLoop]
    · by_cases h1 : (outs.filter (·.2)).map (·.1) = [] <;>
        simp [curveTransform, transformLoop_partial_eq, h1, h2,
          List.isEmpty_iff]
  · intro hne hall cfg
    match cfg with
    | none =>
      have : outs.all (·.2) = false := by
        match outs, hne with
        | pb :: rest, _ =>
          simp only [List.all_cons, Bool.and_eq_false_iff]
          exact Or.inl (by simp [hall pb (by simp)])
      simp [curveTransform, transformLoop_none_eq, this]
    | some true =>
      have hfil : outs.filter (·.2) = [] := by
        rw [List.filter_eq_nil_iff]
        intro pb hmem
        simp [hall pb hmem]
      simp [curveTransform, transformLoop_partial_eq, hfil, List.isEmpty_iff, hne]
    | some false =>
      match outs, hne with
      | pb :: rest, _ =>
        have : pb.2 = false := hall pb (by simp)
        obtain ⟨p, b⟩ := pb
        simp only at this
        subst this
        simp [curveTransform, transformLoop]

/-- C2 witness: a concrete curve where the middle point fails:
unset policy fails; enabled policy keeps the two survivors in order;
an all-failed non-empty curve fails under the enabled policy. -/
theorem transform_partial_reprojection_policy_witness :
    curveTransform [((1, 2, 3), true), ((4, 5, 6), false), ((7, 8, 9), true)]
        none = none ∧
    curveTransform [((1, 2, 3), true), ((4, 5, 6), false), ((7, 8, 9), true)]
        (some true) = some [(1, 2, 3), (7, 8, 9)] ∧
    curveTransform [((1, 2, 3), false)] (some true) = none := by
  refine ⟨?_, ?_, ?_⟩
  · exact (transform_partial_reprojection_policy _).1
      ⟨((4, 5, 6), false), by simp, rfl⟩
  · have h := (transform_partial_reprojection_policy
      [((1, 2, 3), true), ((4, 5, 6), false), ((7, 8, 9), true)]).2.1
    simpa using h
  · exact (transform_partial_reprojection_policy _).2.2 (by simp)
      (by intro pb hmem; simp at hmem; simp [hmem]) (some true)

/-- C8: a feature with no geometry while spatial indexing was requested
fails (nothing is written), and a feature whose geometry type disagrees
with the declared (non-Unknown) layer geometry type fails. -/
theorem createFeature_geometry_guards (ctx : FgbCreateLayerCtx)
    (propsOk : Bool) (g : Option FgbGeometry) :
    (ctx.createSpatialIndexAtClose = true → g = none →
      iCreateFeature ctx propsOk g = .failed) ∧
    (∀ gg, g = some gg → ctx.geometryTypeUnknown = false →
      gg.geomType ≠ ctx.eGType → iCreateFeature ctx propsOk g = .failed) := by
  constructor
  · intro hidx hg
    subst hg
    cases propsOk <;> simp [iCreateFeature, hidx, geomNullOrEmpty]
  · intro gg hg hknown hne
    subst hg
    cases propsOk with
    | false => simp [iCreateFeature]
    | true =>
      by_cases hempty : ctx.createSpatialIndexAtClose && geomNullOrEmpty (some gg)
      · simp [iCreateFeature, hempty]
      · simp only [iCreateFeature, hempty]
        simp [geomTypeMismatch, hknown, hne]

/-- C8 witness: with indexing requested, a geometry-less feature fails;
and a point feature (type code 1) on a linestring layer (type code 2)
fails. -/
theorem createFeature_geometry_guards_witness :
    iCreateFeature ⟨true, false, 2⟩ true none = .failed ∧
    iCreateFeature ⟨false, false, 2⟩ true (some ⟨false, 1⟩) = .failed := by
  constructor
  · exact (createFeature_geometry_guards ⟨true, false, 2⟩ true none).1 rfl rfl
  · exact (createFeature_geometry_guards ⟨false, false, 2⟩ true
      (some ⟨false, 1⟩)).2 ⟨false, 1⟩ rfl rfl (by decide)

/-- C9: closing an indexed writer with zero features written produces a
file with feature count 0 and no index block, and reopening that file
succeeds (for any behaviour of the external packed-tree size
primitive, which is never consulted since the recorded index node size
is 0). -/
theorem emptyIndexedClose_produces_readable_file
    (secondPass : WriterCloseState → Option FgbFileModel)
    (treeSize : ℕ → Option ℕ) (w : WriterCloseState)
    (hcount : w.featuresCount = 0)
    (hnode : w.indexNodeSize = writerInitialIndexNodeSize) :
    ∃ f, createFinalFileIndexed secondPass w = some f ∧
      f.featuresCount = 0 ∧ f.indexBlock = none ∧
      openLayerModel treeSize f = some ⟨0, 0⟩ := by
  refine ⟨{ featuresCount := 0, indexNodeSize := w.indexNodeSize,
            indexBlock := none, featureRecords := [] }, ?_, rfl, rfl, ?_⟩
  · simp [createFinalFileIndexed, hcount]
  · rw [hnode]
    simp [openLayerModel, maxFeaturesCount, writerInitialIndexNodeSize]

/-- C9 witness: the concrete zero-feature writer state, with a
packed-tree size primitive that would fail on zero items (as the real
one does), still yields a readable empty file. -/
theorem emptyIndexedClose_produces_readable_file_witness :
    ∃ f, createFinalFileIndexed (fun _ => none) ⟨0, 0, 0⟩ = some f ∧
      f.featuresCount = 0 ∧ f.indexBlock = none ∧
      openLayerModel (fun _ => none) f = some ⟨0, 0⟩ :=
  emptyIndexedClose_produces_readable_file (fun _ => none) (fun _ => none)
    ⟨0, 0, 0⟩ rfl rfl

section SegmentizeClaims

open scoped Classical

/-- C4: segmentize(L) direction independence. Amended: the curve is
canonicalized by reversing it when its first vertex sorts BEFORE its
last vertex by (x, then y) (the opposite direction from the claim),
the result being reversed back afterwards; whenever segmentize
succeeds on a curve and on its point-reversed twin, the outputs'
x/y planes are reversed-but-otherwise-identical — their z/m planes
need not be, since intermediate z/m are copied from the segment's
start vertex; and whenever a second run on a successful output
succeeds, it returns that output unchanged on every plane, so a
successful second run is idempotent in vertex count. -/
theorem segmentize_direction_independence (L : ℝ) (pts : List SegPt) :
    (0 < L → 2 ≤ pts.length → segmentizeReversesInput pts →
      segmentize L pts = (segmentizeCanon L pts.reverse).map List.reverse) ∧
    (0 < L → 2 ≤ pts.length → ¬ segmentizeReversesInput pts →
      segmentize L pts = segmentizeCanon L pts) ∧
    (∀ out outR, segmentize L pts = some out →
      segmentize L pts.reverse = some outR →
      outR.map xy = (out.map xy).reverse) ∧
    (∀ out out2, segmentize L pts = some out →
      segmentize L out = some out2 → out2 = out) := by
  refine ⟨?_, ?_, ?_, ?_⟩
  · intro hL hlen hG
    unfold segmentize
    rw [if_neg (not_le.mpr hL), if_neg (not_lt.mpr hlen), if_pos hG]
  · intro hL hlen hG
    unfold segmentize
    rw [if_neg (not_le.mpr hL), if_neg (not_lt.mpr hlen), if_neg hG]
  · exact fun out outR => segmentize_rev_xy L pts out outR
  · exact fun out out2 => segmentize_idem L pts out out2

/-- C4 counterexample, both directions of the correction.  First: on
the two-point curve (0,0)-(1,0) the source's canonicalization guard
(ogrlinestring.cpp:2645-2647) fires — the curve is reversed before
subdividing — although its first vertex does NOT sort after its last
vertex by (x, then y): the claim's reversal condition is backwards.
Second: on the closed 3D ring (0,0,z=5)-(10,0,z=7)-(0,0,z=9) with
maxLength 1, whose XY-tied endpoints leave the guard unfired in both
orientations, both runs succeed yet the outputs are NOT
reversed-but-otherwise-identical: intermediate z values are copied
from opposite segment ends (ogrlinestring.cpp:2774-2783). -/
theorem segmentize_reversal_counterexample :
    (segmentizeReversesInput [((0 : ℝ), (0 : ℝ), (0 : ℝ), (0 : ℝ)), ((1 : ℝ), (0 : ℝ), (0 : ℝ), (0 : ℝ))] ∧
      ¬ (px4 [((0 : ℝ), (0 : ℝ), (0 : ℝ), (0 : ℝ)), ((1 : ℝ), (0 : ℝ), (0 : ℝ), (0 : ℝ))] 1 < px4 [((0 : ℝ), (0 : ℝ), (0 : ℝ), (0 : ℝ)), ((1 : ℝ), (0 : ℝ), (0 : ℝ), (0 : ℝ))] 0 ∨
         (px4 [((0 : ℝ), (0 : ℝ), (0 : ℝ), (0 : ℝ)), ((1 : ℝ), (0 : ℝ), (0 : ℝ), (0 : ℝ))] 1 = px4 [((0 : ℝ), (0 : ℝ), (0 : ℝ), (0 : ℝ)), ((1 : ℝ), (0 : ℝ), (0 : ℝ), (0 : ℝ))] 0 ∧
          py4 [((0 : ℝ), (0 : ℝ), (0 : ℝ), (0 : ℝ)), ((1 : ℝ), (0 : ℝ), (0 : ℝ), (0 : ℝ))] 1 < py4 [((0 : ℝ), (0 : ℝ), (0 : ℝ), (0 : ℝ)), ((1 : ℝ), (0 : ℝ), (0 : ℝ), (0 : ℝ))] 0)) ∧
      segmentize 1 [((0 : ℝ), (0 : ℝ), (0 : ℝ), (0 : ℝ)), ((1 : ℝ), (0 : ℝ), (0 : ℝ), (0 : ℝ))] =
        (segmentizeCanon 1 [((1 : ℝ), (0 : ℝ), (0 : ℝ), (0 : ℝ)), ((0 : ℝ), (0 : ℝ), (0 : ℝ), (0 : ℝ))]).map List.reverse) ∧
    (∃ out outR,
      segmentize 1 [((0 : ℝ), (0 : ℝ), (5 : ℝ), (0 : ℝ)), ((10 : ℝ), (0 : ℝ), (7 : ℝ), (0 : ℝ)), ((0 : ℝ), (0 : ℝ), (9 : ℝ), (0 : ℝ))] = some out ∧
      segmentize 1 ([((0 : ℝ), (0 : ℝ), (5 : ℝ), (0 : ℝ)), ((10 : ℝ), (0 : ℝ), (7 : ℝ), (0 : ℝ)), ((0 : ℝ), (0 : ℝ), (9 : ℝ), (0 : ℝ))].reverse) = some outR ∧
      outR ≠ out.reverse) := by
  have hx0 : px4 [((0 : ℝ), (0 : ℝ), (0 : ℝ), (0 : ℝ)), ((1 : ℝ), (0 : ℝ), (0 : ℝ), (0 : ℝ))] 0 = 0 := rfl
  have hx1 : px4 [((0 : ℝ), (0 : ℝ), (0 : ℝ), (0 : ℝ)), ((1 : ℝ), (0 : ℝ), (0 : ℝ), (0 : ℝ))] 1 = 1 := rfl
  have hy0 : py4 [((0 : ℝ), (0 : ℝ), (0 : ℝ), (0 : ℝ)), ((1 : ℝ), (0 : ℝ), (0 : ℝ), (0 : ℝ))] 0 = 0 := rfl
  have hy1 : py4 [((0 : ℝ), (0 : ℝ), (0 : ℝ), (0 : ℝ)), ((1 : ℝ), (0 : ℝ), (0 : ℝ), (0 : ℝ))] 1 = 0 := rfl
  have hG : segmentizeReversesInput [((0 : ℝ), (0 : ℝ), (0 : ℝ), (0 : ℝ)), ((1 : ℝ), (0 : ℝ), (0 : ℝ), (0 : ℝ))] := by
    unfold segmentizeReversesInput
    left
    show px4 [((0 : ℝ), (0 : ℝ), (0 : ℝ), (0 : ℝ)), ((1 : ℝ), (0 : ℝ), (0 : ℝ), (0 : ℝ))] 0 < px4 [((0 : ℝ), (0 : ℝ), (0 : ℝ), (0 : ℝ)), ((1 : ℝ), (0 : ℝ), (0 : ℝ), (0 : ℝ))] 1
    rw [hx0, hx1]
    norm_num
  constructor
  · refine ⟨hG, ?_, ?_⟩
    · rw [hx0, hx1, hy0, hy1]
      intro hc
      rcases hc with h | ⟨h, _⟩ <;> norm_num at h
    · unfold segmentize
      rw [if_neg (by norm_num : ¬ (1 : ℝ) ≤ 0),
        if_neg (by norm_num :
          ¬ ([((0 : ℝ), (0 : ℝ), (0 : ℝ), (0 : ℝ)), ((1 : ℝ), (0 : ℝ), (0 : ℝ), (0 : ℝ))] : List SegPt).length < 2),
        if_pos hG]
      simp
  · have h100a : squareDist ((0 : ℝ), (0 : ℝ)) ((10 : ℝ), (0 : ℝ)) = 100 := by
      norm_num [squareDist]
    have h100b : squareDist ((10 : ℝ), (0 : ℝ)) ((0 : ℝ), (0 : ℝ)) = 100 := by
      norm_num [squareDist]
    have hsubA : subdivides ((1 : ℝ) * 1)
        (squareDist ((0 : ℝ), (0 : ℝ)) ((10 : ℝ), (0 : ℝ))) := by
      rw [h100a]; unfold subdivides; norm_num
    have hsubB : subdivides ((1 : ℝ) * 1)
        (squareDist ((10 : ℝ), (0 : ℝ)) ((0 : ℝ), (0 : ℝ))) := by
      rw [h100b]; unfold subdivides; norm_num
    have hfl : (⌊Real.sqrt ((100 : ℝ) / ((1 : ℝ) * 1)) - 1e-2⌋ : ℤ) = 9 := by
      have hs : Real.sqrt ((100 : ℝ) / ((1 : ℝ) * 1)) = 10 := by
        rw [show ((100 : ℝ) / ((1 : ℝ) * 1)) = 100 by norm_num,
          show (100 : ℝ) = 10 ^ 2 by norm_num]
        exact Real.sqrt_sq (by norm_num)
      rw [hs, Int.floor_eq_iff]
      constructor <;> norm_num
    have hniA : nInterSeg ((1 : ℝ) * 1)
        ((0 : ℝ), (0 : ℝ)) ((10 : ℝ), (0 : ℝ)) = 9 := by
      unfold nInterSeg
      rw [h100a, hfl, doubleToIntClamp_intCast]
      omega
    have hniB : nInterSeg ((1 : ℝ) * 1)
        ((10 : ℝ), (0 : ℝ)) ((0 : ℝ), (0 : ℝ)) = 9 := by
      rw [nInterSeg_comm]; exact hniA
    have hguard1 : ¬((0 : ℤ) + 1 > kMaxSeg ∨ (9 : ℤ) > kMaxSeg) := by
      unfold kMaxSeg; omega
    have hguard2 : ¬((0 : ℤ) + 1 + 9 + 1 > kMaxSeg ∨ (9 : ℤ) > kMaxSeg) := by
      unfold kMaxSeg; omega
    have hcountGen : ∀ (z1 z2 z3 m1 m2 m3 : ℝ),
        countPass ((1 : ℝ) * 1)
          [((0 : ℝ), (0 : ℝ), z1, m1), ((10 : ℝ), (0 : ℝ), z2, m2),
           ((0 : ℝ), (0 : ℝ), z3, m3)] 0 = some 21 := by
      intro z1 z2 z3 m1 m2 m3
      rw [countPass]
      rw [show xy ((0 : ℝ), (0 : ℝ), z1, m1) = ((0 : ℝ), (0 : ℝ)) from rfl,
        show xy ((10 : ℝ), (0 : ℝ), z2, m2) = ((10 : ℝ), (0 : ℝ)) from rfl]
      rw [if_pos hsubA, hniA, if_neg hguard1]
      rw [countPass]
      rw [show xy ((10 : ℝ), (0 : ℝ), z2, m2) = ((10 : ℝ), (0 : ℝ)) from rfl,
        show xy ((0 : ℝ), (0 : ℝ), z3, m3) = ((0 : ℝ), (0 : ℝ)) from rfl]
      rw [if_pos hsubB, hniB, if_neg hguard2]
      rw [countPass]
      norm_num
    have hGGen : ∀ (z1 z2 z3 m1 m2 m3 : ℝ),
        ¬ segmentizeReversesInput
          [((0 : ℝ), (0 : ℝ), z1, m1), ((10 : ℝ), (0 : ℝ), z2, m2),
           ((0 : ℝ), (0 : ℝ), z3, m3)] := by
      intro z1 z2 z3 m1 m2 m3 hc
      unfold segmentizeReversesInput at hc
      have e1 : px4 [((0 : ℝ), (0 : ℝ), z1, m1), ((10 : ℝ), (0 : ℝ), z2, m2),
          ((0 : ℝ), (0 : ℝ), z3, m3)] 0 = 0 := rfl
      have e2 : px4 [((0 : ℝ), (0 : ℝ), z1, m1), ((10 : ℝ), (0 : ℝ), z2, m2),
          ((0 : ℝ), (0 : ℝ), z3, m3)]
          (([((0 : ℝ), (0 : ℝ), z1, m1), ((10 : ℝ), (0 : ℝ), z2, m2),
             ((0 : ℝ), (0 : ℝ), z3, m3)] : List SegPt).length - 1) = 0 := rfl
      have e3 : py4 [((0 : ℝ), (0 : ℝ), z1, m1), ((10 : ℝ), (0 : ℝ), z2, m2),
          ((0 : ℝ), (0 : ℝ), z3, m3)] 0 = 0 := rfl
      have e4 : py4 [((0 : ℝ), (0 : ℝ), z1, m1), ((10 : ℝ), (0 : ℝ), z2, m2),
          ((0 : ℝ), (0 : ℝ), z3, m3)]
          (([((0 : ℝ), (0 : ℝ), z1, m1), ((10 : ℝ), (0 : ℝ), z2, m2),
             ((0 : ℝ), (0 : ℝ), z3, m3)] : List SegPt).length - 1) = 0 := rfl
      rw [e1, e2, e3, e4] at hc
      rcases hc with h | ⟨_, h⟩ <;> norm_num at h
    have hsegGen : ∀ (z1 z2 z3 m1 m2 m3 : ℝ),
        segmentize 1
          [((0 : ℝ), (0 : ℝ), z1, m1), ((10 : ℝ), (0 : ℝ), z2, m2),
           ((0 : ℝ), (0 : ℝ), z3, m3)] =
          some (fillPass ((1 : ℝ) * 1)
            [((0 : ℝ), (0 : ℝ), z1, m1), ((10 : ℝ), (0 : ℝ), z2, m2),
             ((0 : ℝ), (0 : ℝ), z3, m3)]) := by
      intro z1 z2 z3 m1 m2 m3
      unfold segmentize
      rw [if_neg (by norm_num : ¬ (1 : ℝ) ≤ 0),
        if_neg (by simp :
          ¬ ([((0 : ℝ), (0 : ℝ), z1, m1), ((10 : ℝ), (0 : ℝ), z2, m2),
              ((0 : ℝ), (0 : ℝ), z3, m3)] : List SegPt).length < 2),
        if_neg (hGGen z1 z2 z3 m1 m2 m3)]
      unfold segmentizeCanon
      rw [hcountGen z1 z2 z3 m1 m2 m3]
      simp only []
      rw [if_neg (by simp :
        ¬ ((([((0 : ℝ), (0 : ℝ), z1, m1), ((10 : ℝ), (0 : ℝ), z2, m2),
             ((0 : ℝ), (0 : ℝ), z3, m3)] : List SegPt).length : ℤ) = 21))]
    refine ⟨fillPass ((1 : ℝ) * 1) [((0 : ℝ), (0 : ℝ), (5 : ℝ), (0 : ℝ)), ((10 : ℝ), (0 : ℝ), (7 : ℝ), (0 : ℝ)), ((0 : ℝ), (0 : ℝ), (9 : ℝ), (0 : ℝ))],
      fillPass ((1 : ℝ) * 1) [((0 : ℝ), (0 : ℝ), (9 : ℝ), (0 : ℝ)), ((10 : ℝ), (0 : ℝ), (7 : ℝ), (0 : ℝ)), ((0 : ℝ), (0 : ℝ), (5 : ℝ), (0 : ℝ))],
      hsegGen 5 7 9 0 0 0, hsegGen 9 7 5 0 0 0, ?_⟩
    intro heq
    have hsub1 : subdivides ((1 : ℝ) * 1)
        (squareDist (xy ((0 : ℝ), (0 : ℝ), (9 : ℝ), (0 : ℝ))) (xy ((10 : ℝ), (0 : ℝ), (7 : ℝ), (0 : ℝ)))) := hsubA
    have hni1 : nInterSeg ((1 : ℝ) * 1)
        (xy ((0 : ℝ), (0 : ℝ), (9 : ℝ), (0 : ℝ))) (xy ((10 : ℝ), (0 : ℝ), (7 : ℝ), (0 : ℝ))) = 9 := hniA
    have hz1 : pz4 (fillPass ((1 : ℝ) * 1) [((0 : ℝ), (0 : ℝ), (9 : ℝ), (0 : ℝ)), ((10 : ℝ), (0 : ℝ), (7 : ℝ), (0 : ℝ)), ((0 : ℝ), (0 : ℝ), (5 : ℝ), (0 : ℝ))]) 1 = 9 := by
      rw [fillPass]
      unfold intermediatePoints
      rw [if_pos hsub1, hni1]
      rfl
    have hsub2 : subdivides ((1 : ℝ) * 1)
        (squareDist (xy ((0 : ℝ), (0 : ℝ), (5 : ℝ), (0 : ℝ))) (xy ((10 : ℝ), (0 : ℝ), (7 : ℝ), (0 : ℝ)))) := hsubA
    have hni2 : nInterSeg ((1 : ℝ) * 1)
        (xy ((0 : ℝ), (0 : ℝ), (5 : ℝ), (0 : ℝ))) (xy ((10 : ℝ), (0 : ℝ), (7 : ℝ), (0 : ℝ))) = 9 := hniA
    have hsub3 : subdivides ((1 : ℝ) * 1)
        (squareDist (xy ((10 : ℝ), (0 : ℝ), (7 : ℝ), (0 : ℝ))) (xy ((0 : ℝ), (0 : ℝ), (9 : ℝ), (0 : ℝ)))) := hsubB
    have hni3 : nInterSeg ((1 : ℝ) * 1)
        (xy ((10 : ℝ), (0 : ℝ), (7 : ℝ), (0 : ℝ))) (xy ((0 : ℝ), (0 : ℝ), (9 : ℝ), (0 : ℝ))) = 9 := hniB
    have hz2 : pz4 ((fillPass ((1 : ℝ) * 1) [((0 : ℝ), (0 : ℝ), (5 : ℝ), (0 : ℝ)), ((10 : ℝ), (0 : ℝ), (7 : ℝ), (0 : ℝ)), ((0 : ℝ), (0 : ℝ), (9 : ℝ), (0 : ℝ))]).reverse) 1 = 7 := by
      rw [fillPass, fillPass, fillPass]
      unfold intermediatePoints
      rw [if_pos hsub2, if_pos hsub3, hni2, hni3]
      rfl
    have hcontra : pz4 (fillPass ((1 : ℝ) * 1) [((0 : ℝ), (0 : ℝ), (9 : ℝ), (0 : ℝ)), ((10 : ℝ), (0 : ℝ), (7 : ℝ), (0 : ℝ)), ((0 : ℝ), (0 : ℝ), (5 : ℝ), (0 : ℝ))]) 1 =
        pz4 ((fillPass ((1 : ℝ) * 1) [((0 : ℝ), (0 : ℝ), (5 : ℝ), (0 : ℝ)), ((10 : ℝ), (0 : ℝ), (7 : ℝ), (0 : ℝ)), ((0 : ℝ), (0 : ℝ), (9 : ℝ), (0 : ℝ))]).reverse) 1 := by
      rw [heq]
    rw [hz1, hz2] at hcontra
    norm_num at hcontra

/-- C4 witness: the claim theorem applied to the curve
(0,0)-(0,0) (all planes zero), whose tied endpoints leave the
canonicalization guard unfired. -/
theorem segmentize_direction_independence_witness :
    (0 : ℝ) < 1 ∧
    2 ≤ ([((0 : ℝ), (0 : ℝ), (0 : ℝ), (0 : ℝ)), ((0 : ℝ), (0 : ℝ), (0 : ℝ), (0 : ℝ))] : List SegPt).length ∧
    segmentize 1 [((0 : ℝ), (0 : ℝ), (0 : ℝ), (0 : ℝ)), ((0 : ℝ), (0 : ℝ), (0 : ℝ), (0 : ℝ))] = segmentizeCanon 1 [((0 : ℝ), (0 : ℝ), (0 : ℝ), (0 : ℝ)), ((0 : ℝ), (0 : ℝ), (0 : ℝ), (0 : ℝ))] := by
  refine ⟨by norm_num, by simp, ?_⟩
  refine (segmentize_direction_independence 1 _).2.1 (by norm_num) (by simp) ?_
  intro hc
  unfold segmentizeReversesInput at hc
  have e1 : px4 [((0 : ℝ), (0 : ℝ), (0 : ℝ), (0 : ℝ)), ((0 : ℝ), (0 : ℝ), (0 : ℝ), (0 : ℝ))] 0 = 0 := rfl
  have e2 : px4 [((0 : ℝ), (0 : ℝ), (0 : ℝ), (0 : ℝ)), ((0 : ℝ), (0 : ℝ), (0 : ℝ), (0 : ℝ))]
      (([((0 : ℝ), (0 : ℝ), (0 : ℝ), (0 : ℝ)), ((0 : ℝ), (0 : ℝ), (0 : ℝ), (0 : ℝ))] : List SegPt).length - 1) = 0 := rfl
  have e3 : py4 [((0 : ℝ), (0 : ℝ), (0 : ℝ), (0 : ℝ)), ((0 : ℝ), (0 : ℝ), (0 : ℝ), (0 : ℝ))] 0 = 0 := rfl
  have e4 : py4 [((0 : ℝ), (0 : ℝ), (0 : ℝ), (0 : ℝ)), ((0 : ℝ), (0 : ℝ), (0 : ℝ), (0 : ℝ))]
      (([((0 : ℝ), (0 : ℝ), (0 : ℝ), (0 : ℝ)), ((0 : ℝ), (0 : ℝ), (0 : ℝ), (0 : ℝ))] : List SegPt).length - 1) = 0 := rfl
  rw [e1, e2, e3, e4] at hc
  rcases hc with h | ⟨_, h⟩ <;> norm_num at h

end SegmentizeClaims

end GdalSpec
